import Mathlib

/-!
Shallow embedding of the vehicle simulation core of `src/vehicle.cpp`
(OpenTTD): the tile spatial hash, consist chaining (`SetNext`), the
breakdown roll, the per-tick scheduler with its deferred autoreplace
pass, depot entry bookkeeping, unbunching round-trip smoothing,
percent-filled computation and the free unit-ID allocator.

Machine integers are modelled as `Nat` with explicit clamping where the
source saturates; intrusive doubly-linked hash buckets are modelled as
the list of vehicle indices linked in each bucket (the prev/next pointer
surgery of the source implements exactly erase-from-list and
cons-at-head); the global vehicle pool is modelled as the list of
vehicle records in pool order.
-/

set_option maxHeartbeats 1000000

namespace OTTD

/-! ### Generic helpers from core headers (not part of this excerpt) -/

/-- Modelled from the spec: `GB(x, s, n)` of the bit-math helpers extracts the
`n`-bit field of `x` starting at bit `s` (the spec speaks of "top 6 bits of
clamped reliability" for `GB`-style extraction). -/
def GB (x s n : Nat) : Nat := (x >>> s) % (2 ^ n)

/-- Modelled from the spec: `CeilDiv(a, b)` — integer division rounding up
("rounds up via CeilDiv"). -/
def CeilDiv (a b : Nat) : Nat := (a + b - 1) / b

/-- Modelled from the spec: `Clamp(a, lo, hi)` — clamp `a` into `[lo, hi]`
("clamped to half/double the previous smoothed value"). -/
def Clamp (a lo hi : Nat) : Nat := if a ≤ lo then lo else if hi ≤ a then hi else a

/-- Modelled from the spec: `ClampTo<T>` for an unsigned `bits`-wide type,
applied to a non-negative value — saturate at `2 ^ bits - 1`. -/
def ClampTo (bits v : Nat) : Nat := min v (2 ^ bits - 1)

/-! ### C7 — CalcPercentVehicleFilled (vehicle.cpp:1461-1514)

The consist is modelled as the list of its members' cargo data:
`(cargo.StoredCount(), cargo_cap)` pairs, summed by the loop of the
source function.  The colour-string computation is display-only and
independent of the returned percentage; it is omitted. -/

/-- Total stored cargo of the consist: `count += v->cargo.StoredCount()`. -/
def consistCount (consist : List (Nat × Nat)) : Nat := (consist.map Prod.fst).sum

/-- Total capacity of the consist: `max += v->cargo_cap`. -/
def consistMax (consist : List (Nat × Nat)) : Nat := (consist.map Prod.snd).sum

/-- `CalcPercentVehicleFilled` (vehicle.cpp): percentage of capacity in use,
rounded towards 50% — `CeilDiv` below half, floor division at or above half,
and 100 for a consist without capacity. -/
def CalcPercentVehicleFilled (consist : List (Nat × Nat)) : Nat :=
  let count := consistCount consist
  let mx := consistMax consist
  if mx = 0 then 100
  else if count * 2 < mx then CeilDiv (count * 100) mx
  else count * 100 / mx

/-! ### C6 — unbunching round-trip smoothing (vehicle.cpp:1641-1651) -/

/-- Modelled from the spec: `TimerGameTick::Ticks` is a 32-bit signed tick
count; `ClampTo<Ticks>` on a non-negative value saturates at `2^31 - 1`. -/
def ClampToTicks (v : Nat) : Nat := min v (2 ^ 31 - 1)

/-- The round-trip measurement block of `VehicleEnterDepot`: when the current
depot order carries the unbunch action and a departure timestamp was recorded
(`depot_unbunching_last_departure > 0`), measure the elapsed ticks and either
take them as the first `round_trip_time` or clamp them to
`[round_trip_time / 2, round_trip_time * 2]`. -/
def unbunchRoundTrip (unbunchAction : Bool) (last_departure counter round_trip_time : Nat) :
    Nat :=
  if unbunchAction = true ∧ 0 < last_departure then
    let measured := counter - last_departure
    if round_trip_time = 0 then measured
    else Clamp measured (round_trip_time / 2) (ClampToTicks (round_trip_time * 2))
  else round_trip_time

/-! ### Theorems for C6 and C7 -/

/-- C6: in `VehicleEnterDepot`, with an unbunch depot order and a recorded
departure timestamp, a first measurement (round_trip_time = 0) is stored
verbatim, and a later measurement is clamped to `[previous/2, previous*2]`;
with previous 100, a measurement of 1000 yields 200 and a measurement of 10
yields 50, and a first measurement of 100 yields 100. -/
theorem unbunchRoundTrip_spec (last_departure counter round_trip_time : Nat)
    (hdep : 0 < last_departure) :
    (round_trip_time = 0 →
      unbunchRoundTrip true last_departure counter round_trip_time =
        counter - last_departure) ∧
    (round_trip_time ≠ 0 →
      unbunchRoundTrip true last_departure counter round_trip_time =
        Clamp (counter - last_departure) (round_trip_time / 2)
          (ClampToTicks (round_trip_time * 2))) ∧
    unbunchRoundTrip true 1 101 0 = 100 ∧
    unbunchRoundTrip true 1 1001 100 = 200 ∧
    unbunchRoundTrip true 1 11 100 = 50 := by
  refine ⟨?_, ?_, by decide, by decide, by decide⟩
  · intro h0
    simp [unbunchRoundTrip, hdep, h0]
  · intro h0
    simp [unbunchRoundTrip, hdep, h0]

/-- Witness for C6 at concrete inputs. -/
theorem unbunchRoundTrip_spec_witness :
    unbunchRoundTrip true 7 1007 100 = Clamp 1000 50 (ClampToTicks 200) :=
  (unbunchRoundTrip_spec 7 1007 100 (by decide)).2.1 (by decide)

/-- C7: `CalcPercentVehicleFilled` returns 100 when total capacity is 0;
below half full it returns `CeilDiv (count * 100) max`; at or above half it
returns `count * 100 / max`; count=1,max=4 gives 25 and count=2,max=4 gives
50; 0 is returned only when truly empty and (given count ≤ max) 100 only when
truly full. -/
theorem calcPercentVehicleFilled_spec (consist : List (Nat × Nat))
    (hcm : consistCount consist ≤ consistMax consist) :
    (consistMax consist = 0 → CalcPercentVehicleFilled consist = 100) ∧
    (consistCount consist * 2 < consistMax consist →
      CalcPercentVehicleFilled consist =
        CeilDiv (consistCount consist * 100) (consistMax consist)) ∧
    (consistMax consist ≠ 0 → consistMax consist ≤ consistCount consist * 2 →
      CalcPercentVehicleFilled consist =
        consistCount consist * 100 / consistMax consist) ∧
    CalcPercentVehicleFilled [(1, 4)] = 25 ∧
    CalcPercentVehicleFilled [(2, 4)] = 50 ∧
    (CalcPercentVehicleFilled consist = 0 → consistCount consist = 0) ∧
    (CalcPercentVehicleFilled consist = 100 →
      consistCount consist = consistMax consist) := by
  set c := consistCount consist with hc
  set m := consistMax consist with hm
  refine ⟨?_, ?_, ?_, by decide, by decide, ?_, ?_⟩
  · intro h0
    simp [CalcPercentVehicleFilled, ← hc, ← hm, h0]
  · intro hlt
    have hm0 : m ≠ 0 := by omega
    simp [CalcPercentVehicleFilled, ← hc, ← hm, hm0, hlt]
  · intro hm0 hge
    have : ¬(c * 2 < m) := by omega
    simp [CalcPercentVehicleFilled, ← hc, ← hm, hm0, this]
  · intro hz
    by_cases hm0 : m = 0
    · simp [CalcPercentVehicleFilled, ← hc, ← hm, hm0] at hz
    · by_cases hlt : c * 2 < m
      · simp [CalcPercentVehicleFilled, ← hc, ← hm, hm0, hlt, CeilDiv] at hz
        have hmpos : 0 < m := Nat.pos_of_ne_zero hm0
        have := (Nat.div_eq_zero_iff hmpos).mp hz
        omega
      · simp [CalcPercentVehicleFilled, ← hc, ← hm, hm0, hlt] at hz
        have hmpos : 0 < m := Nat.pos_of_ne_zero hm0
        have := (Nat.div_eq_zero_iff hmpos).mp hz
        omega
  · intro h100
    by_cases hm0 : m = 0
    · omega
    · have hmpos : 0 < m := Nat.pos_of_ne_zero hm0
      by_cases hlt : c * 2 < m
      · simp [CalcPercentVehicleFilled, ← hc, ← hm, hm0, hlt, CeilDiv] at h100
        have h1 : 100 ≤ (c * 100 + m - 1) / m := le_of_eq h100.symm
        have h2 : 100 * m ≤ c * 100 + m - 1 := (Nat.le_div_iff_mul_le hmpos).mp h1
        omega
      · simp [CalcPercentVehicleFilled, ← hc, ← hm, hm0, hlt] at h100
        have h1 : 100 ≤ c * 100 / m := le_of_eq h100.symm
        have h2 : 100 * m ≤ c * 100 := (Nat.le_div_iff_mul_le hmpos).mp h1
        omega

/-- Witness for C7 at a concrete consist. -/
theorem calcPercentVehicleFilled_spec_witness :
    CalcPercentVehicleFilled [(1, 4)] = 25 :=
  (calcPercentVehicleFilled_spec [(1, 4)] (by decide)).2.2.2.1

/-! ### C4 — CheckVehicleBreakdown (vehicle.cpp:1276-1324)

Settings and vehicle fields read by the function are gathered in records;
the call to the deterministic random stream is modelled by passing the
drawn 32-bit value `r` explicitly. -/

/-- The 64-entry probability table `_breakdown_chance` (vehicle.cpp:1276). -/
def _breakdown_chance : List Nat :=
  [  3,   3,   3,   3,   3,   3,   3,   3,
     4,   4,   5,   5,   6,   6,   7,   7,
     8,   8,   9,   9,  10,  10,  11,  11,
    12,  13,  13,  13,  13,  14,  15,  16,
    17,  19,  21,  25,  28,  31,  34,  37,
    40,  44,  48,  52,  56,  60,  64,  68,
    72,  80,  90, 100, 110, 120, 130, 140,
   150, 170, 190, 210, 230, 250, 250, 250]

/-- Modelled from the spec: `Chance16I(a, b, r)` of core/random_func.hpp (not
in this excerpt) is true with probability `a/b` for the drawn random `r`
("a 1-in-25 chance of a further jump"). -/
def Chance16I (a b r : Nat) : Bool := r % b < a

/-- Fields of `Vehicle` read and written by `CheckVehicleBreakdown`. -/
structure BreakdownVehicle where
  reliability : Nat          -- uint16
  reliability_spd_dec : Nat
  breakdown_ctr : Nat        -- uint8
  breakdown_chance : Nat     -- uint8
  breakdown_delay : Nat      -- uint8
  cur_speed : Nat
  stopped : Bool             -- vehstatus.Test(VehState::Stopped)
  isShip : Bool              -- type == VEH_SHIP

/-- Game state read by `CheckVehicleBreakdown`. -/
structure BreakdownSettings where
  no_servicing_if_no_breakdowns : Bool
  vehicle_breakdowns : Nat   -- difficulty setting 0..2
  menuMode : Bool            -- _game_mode == GM_MENU

/-- The four vehicle fields `CheckVehicleBreakdown` may write. -/
structure BreakdownOutput where
  reliability : Nat
  breakdown_ctr : Nat
  breakdown_chance : Nat
  breakdown_delay : Nat

/-- `CheckVehicleBreakdown` (vehicle.cpp:1287): decrease reliability, then —
behind the gate on `breakdown_ctr`, Stopped, the difficulty setting, speed and
menu mode — roll the chance counter and compare the reliability-indexed table
against it, triggering randomized countdown/delay values. -/
def CheckVehicleBreakdown (cfg : BreakdownSettings) (v : BreakdownVehicle) (r : Nat) :
    BreakdownOutput :=
  let rel :=
    if cfg.no_servicing_if_no_breakdowns = false ∨ cfg.vehicle_breakdowns ≠ 0 then
      v.reliability - v.reliability_spd_dec
    else v.reliability
  if v.breakdown_ctr ≠ 0 ∨ v.stopped = true ∨ cfg.vehicle_breakdowns < 1 ∨
      v.cur_speed < 5 ∨ cfg.menuMode = true then
    { reliability := rel, breakdown_ctr := v.breakdown_ctr,
      breakdown_chance := v.breakdown_chance, breakdown_delay := v.breakdown_delay }
  else
    let chance0 := v.breakdown_chance + 1
    let chance1 := if Chance16I 1 25 r then chance0 + 25 else chance0
    let chance := ClampTo 8 chance1
    let rel1 := rel + (if v.isShip then 0x6666 else 0)
    let rel2 := rel1 + (if cfg.vehicle_breakdowns = 1 then 0x6666 else 0)
    if _breakdown_chance.getD (ClampTo 16 rel2 >>> 10) 0 ≤ chance then
      { reliability := rel, breakdown_ctr := GB r 16 6 + 0x3F,
        breakdown_chance := 0, breakdown_delay := GB r 24 7 + 0x80 }
    else
      { reliability := rel, breakdown_ctr := v.breakdown_ctr,
        breakdown_chance := chance, breakdown_delay := v.breakdown_delay }

/-- The gate conditions under which `CheckVehicleBreakdown` proceeds past the
reliability decrease. -/
def BreakdownGate (cfg : BreakdownSettings) (v : BreakdownVehicle) : Prop :=
  v.breakdown_ctr = 0 ∧ v.stopped = false ∧ 1 ≤ cfg.vehicle_breakdowns ∧
    5 ≤ v.cur_speed ∧ cfg.menuMode = false

instance (cfg : BreakdownSettings) (v : BreakdownVehicle) :
    Decidable (BreakdownGate cfg v) := by
  unfold BreakdownGate; infer_instance

/-- The reliability value after the decrement step (skipped only when
breakdowns are disabled together with the no-servicing setting). -/
def breakdownRelNext (cfg : BreakdownSettings) (v : BreakdownVehicle) : Nat :=
  if cfg.no_servicing_if_no_breakdowns = true ∧ cfg.vehicle_breakdowns = 0 then
    v.reliability
  else v.reliability - v.reliability_spd_dec

/-- The chance counter after a passing gate: incremented by 1 plus 25 on the
1-in-25 roll, saturated at 255. -/
def breakdownChanceNext (v : BreakdownVehicle) (r : Nat) : Nat :=
  ClampTo 8 (v.breakdown_chance + 1 + (if Chance16I 1 25 r then 25 else 0))

/-- The adjusted reliability used for the table lookup. -/
def breakdownRelAdj (cfg : BreakdownSettings) (v : BreakdownVehicle) : Nat :=
  breakdownRelNext cfg v + (if v.isShip then 0x6666 else 0) +
    (if cfg.vehicle_breakdowns = 1 then 0x6666 else 0)

/-- C4: `CheckVehicleBreakdown` decreases reliability by
`reliability_spd_dec` (floored at 0 — `Nat` subtraction) unless breakdowns
are disabled together with the no-servicing setting; when the gate fails,
`breakdown_ctr`/`breakdown_chance`/`breakdown_delay` are unchanged; when it
passes, the chance counter is incremented by 1 plus 25 on the 1-in-25 roll
(saturating at 255) and the 64-entry monotonically non-decreasing table,
indexed by the top 6 bits of the clamped adjusted reliability, triggers a
breakdown with `breakdown_ctr ∈ [0x3F, 0x7E]`, `breakdown_delay ∈
[0x80, 0xFF]` and a reset chance counter. -/
theorem checkVehicleBreakdown_spec (cfg : BreakdownSettings) (v : BreakdownVehicle)
    (r : Nat) :
    ((CheckVehicleBreakdown cfg v r).reliability =
      if cfg.no_servicing_if_no_breakdowns = true ∧ cfg.vehicle_breakdowns = 0 then
        v.reliability
      else v.reliability - v.reliability_spd_dec) ∧
    (¬ BreakdownGate cfg v →
      (CheckVehicleBreakdown cfg v r).breakdown_ctr = v.breakdown_ctr ∧
      (CheckVehicleBreakdown cfg v r).breakdown_chance = v.breakdown_chance ∧
      (CheckVehicleBreakdown cfg v r).breakdown_delay = v.breakdown_delay) ∧
    (BreakdownGate cfg v →
      (_breakdown_chance.getD (ClampTo 16 (breakdownRelAdj cfg v) >>> 10) 0 ≤
          breakdownChanceNext v r →
        (CheckVehicleBreakdown cfg v r).breakdown_ctr = GB r 16 6 + 0x3F ∧
        0x3F ≤ (CheckVehicleBreakdown cfg v r).breakdown_ctr ∧
        (CheckVehicleBreakdown cfg v r).breakdown_ctr ≤ 0x7E ∧
        (CheckVehicleBreakdown cfg v r).breakdown_delay = GB r 24 7 + 0x80 ∧
        0x80 ≤ (CheckVehicleBreakdown cfg v r).breakdown_delay ∧
        (CheckVehicleBreakdown cfg v r).breakdown_delay ≤ 0xFF ∧
        (CheckVehicleBreakdown cfg v r).breakdown_chance = 0) ∧
      (¬ (_breakdown_chance.getD (ClampTo 16 (breakdownRelAdj cfg v) >>> 10) 0 ≤
          breakdownChanceNext v r) →
        (CheckVehicleBreakdown cfg v r).breakdown_ctr = v.breakdown_ctr ∧
        (CheckVehicleBreakdown cfg v r).breakdown_delay = v.breakdown_delay ∧
        (CheckVehicleBreakdown cfg v r).breakdown_chance = breakdownChanceNext v r)) ∧
    _breakdown_chance.length = 64 ∧
    (∀ j, j < 64 → ∀ i, i ≤ j →
      _breakdown_chance.getD i 0 ≤ _breakdown_chance.getD j 0) := by
  have hrel0 : (if cfg.no_servicing_if_no_breakdowns = false ∨
        cfg.vehicle_breakdowns ≠ 0 then v.reliability - v.reliability_spd_dec
      else v.reliability) = breakdownRelNext cfg v := by
    unfold breakdownRelNext
    cases hb : cfg.no_servicing_if_no_breakdowns <;>
      by_cases hz : cfg.vehicle_breakdowns = 0 <;> simp [hb, hz]
  have hch : (if Chance16I 1 25 r then v.breakdown_chance + 1 + 25
      else v.breakdown_chance + 1) =
      v.breakdown_chance + 1 + (if Chance16I 1 25 r then 25 else 0) := by
    by_cases hc : Chance16I 1 25 r <;> simp [hc]
  have hform : CheckVehicleBreakdown cfg v r =
      if v.breakdown_ctr ≠ 0 ∨ v.stopped = true ∨ cfg.vehicle_breakdowns < 1 ∨
          v.cur_speed < 5 ∨ cfg.menuMode = true then
        { reliability := breakdownRelNext cfg v, breakdown_ctr := v.breakdown_ctr,
          breakdown_chance := v.breakdown_chance, breakdown_delay := v.breakdown_delay }
      else if _breakdown_chance.getD (ClampTo 16 (breakdownRelAdj cfg v) >>> 10) 0 ≤
          breakdownChanceNext v r then
        { reliability := breakdownRelNext cfg v, breakdown_ctr := GB r 16 6 + 0x3F,
          breakdown_chance := 0, breakdown_delay := GB r 24 7 + 0x80 }
      else
        { reliability := breakdownRelNext cfg v, breakdown_ctr := v.breakdown_ctr,
          breakdown_chance := breakdownChanceNext v r,
          breakdown_delay := v.breakdown_delay } := by
    unfold CheckVehicleBreakdown breakdownRelAdj breakdownChanceNext
    simp only [hrel0, hch]
  have hgate_iff : ¬ BreakdownGate cfg v ↔
      (v.breakdown_ctr ≠ 0 ∨ v.stopped = true ∨ cfg.vehicle_breakdowns < 1 ∨
        v.cur_speed < 5 ∨ cfg.menuMode = true) := by
    unfold BreakdownGate
    constructor
    · intro hng
      by_contra hd
      push_neg at hd
      exact hng ⟨hd.1, Bool.eq_false_iff.mpr hd.2.1, by omega, by omega,
        Bool.eq_false_iff.mpr hd.2.2.2.2⟩
    · rintro hd ⟨g1, g2, g3, g4, g5⟩
      rcases hd with h | h | h | h | h
      · exact h g1
      · rw [g2] at h; cases h
      · omega
      · omega
      · rw [g5] at h; cases h
  have hrr : (CheckVehicleBreakdown cfg v r).reliability = breakdownRelNext cfg v := by
    rw [hform]
    split
    · rfl
    · split <;> rfl
  refine ⟨by rw [hrr]; rfl, ?_, ?_, by decide, by decide⟩
  · intro hng
    rw [hform, if_pos (hgate_iff.mp hng)]
    exact ⟨rfl, rfl, rfl⟩
  · intro hg
    have hd : ¬(v.breakdown_ctr ≠ 0 ∨ v.stopped = true ∨ cfg.vehicle_breakdowns < 1 ∨
        v.cur_speed < 5 ∨ cfg.menuMode = true) := fun h => (hgate_iff.mpr h) hg
    constructor
    · intro htrig
      rw [hform, if_neg hd, if_pos htrig]
      have h1 : GB r 16 6 < 64 := Nat.mod_lt _ (by decide)
      have h2 : GB r 24 7 < 128 := Nat.mod_lt _ (by decide)
      exact ⟨rfl, by simp, by simp; omega, rfl, by simp, by simp; omega, rfl⟩
    · intro htrig
      rw [hform, if_neg hd, if_neg htrig]
      exact ⟨rfl, rfl, rfl⟩

/-- Witness for C4: with breakdowns enabled (difficulty 2), a moving vehicle
with zero reliability and a maximal chance counter triggers a breakdown with
the countdown and delay drawn from the random value. -/
theorem checkVehicleBreakdown_spec_witness :
    (CheckVehicleBreakdown
      { no_servicing_if_no_breakdowns := false, vehicle_breakdowns := 2,
        menuMode := false }
      { reliability := 0, reliability_spd_dec := 0, breakdown_ctr := 0,
        breakdown_chance := 254, breakdown_delay := 7, cur_speed := 10,
        stopped := false, isShip := false } 0).breakdown_chance = 0 :=
  ((((checkVehicleBreakdown_spec
    { no_servicing_if_no_breakdowns := false, vehicle_breakdowns := 2,
      menuMode := false }
    { reliability := 0, reliability_spd_dec := 0, breakdown_ctr := 0,
      breakdown_chance := 254, breakdown_delay := 7, cur_speed := 10,
      stopped := false, isShip := false } 0).2.2.1
      (by decide)).1 (by decide)).2.2.2.2.2.2)

/-! ### C1, C2 — the tile spatial hash (vehicle.cpp:383-520, 592-621)

`TileIndex` is modelled as the coordinate pair `(TileX, TileY)` (the map
decomposition lives outside this excerpt).  A bucket of the intrusive
doubly-linked `_vehicle_tile_hash` is modelled as the list of vehicle
indices linked in it, head first: the pointer surgery of
`UpdateVehicleTileHash` removes a vehicle from its old bucket's list and
conses it onto the head of the new one; `v->hash_tile_current` is the
cached bucket. -/

def TILE_HASH_BITS : Nat := 7

def TILE_HASH_RES : Nat := 0

/-- `GetTileHash1D` (vehicle.cpp:397): `GB(p, TILE_HASH_RES, TILE_HASH_BITS)`. -/
def GetTileHash1D (p : Nat) : Nat := GB p TILE_HASH_RES TILE_HASH_BITS

/-- `ComposeTileHash` (vehicle.cpp:413): `hx | hy << TILE_HASH_BITS`. -/
def ComposeTileHash (hx hy : Nat) : Nat := hx ||| (hy <<< TILE_HASH_BITS)

/-- `GetTileHash` (vehicle.cpp:421). -/
def GetTileHash (x y : Nat) : Nat := ComposeTileHash (GetTileHash1D x) (GetTileHash1D y)

/-- The part of the world state touched by the tile hash: the bucket lists of
`_vehicle_tile_hash`, each vehicle's cached bucket `hash_tile_current`
(`none` = not linked), and each vehicle's `tile` field as `(TileX, TileY)`. -/
structure TileHashState where
  buckets : Nat → List Nat
  cached : Nat → Option Nat
  tileOf : Nat → Nat × Nat

/-- `UpdateVehicleTileHash` (vehicle.cpp:592): compute the target bucket from
`v->tile` (or `none` for `remove`); if it equals the cached bucket do
nothing; otherwise unlink from the old bucket, splice into the head of the
new one and update the cached bucket. -/
def UpdateVehicleTileHash (s : TileHashState) (v : Nat) (remove : Bool) : TileHashState :=
  let old_hash := s.cached v
  let new_hash := if remove then none
    else some (GetTileHash (s.tileOf v).1 (s.tileOf v).2)
  if old_hash = new_hash then s
  else
    let s1 := match old_hash with
      | some b =>
          { s with buckets := fun b2 => if b2 = b then (s.buckets b).erase v
              else s.buckets b2 }
      | none => s
    let s2 := match new_hash with
      | some b =>
          { s1 with buckets := fun b2 => if b2 = b then v :: s1.buckets b
              else s1.buckets b2 }
      | none => s1
    { s2 with cached := fun u => if u = v then new_hash else s2.cached u }

/-- `Vehicle::UpdatePosition` (vehicle.cpp:1662). -/
def UpdatePosition (s : TileHashState) (v : Nat) : TileHashState :=
  UpdateVehicleTileHash s v false

/-- Hash well-formedness: every vehicle is linked exactly once in the bucket
recorded by its cached bucket pointer and in no other bucket. -/
def WfTileHash (s : TileHashState) : Prop :=
  ∀ v b, (s.buckets b).count v = if s.cached v = some b then 1 else 0

/-- Every linked vehicle is linked in the bucket of its current tile (the
discipline maintained by calling `UpdatePosition` on every move). -/
def HashCurrent (s : TileHashState) : Prop :=
  ∀ v b, s.cached v = some b → b = GetTileHash (s.tileOf v).1 (s.tileOf v).2

/-- Shape lemma: `UpdateVehicleTileHash` with no previous link splices the
vehicle into the head of the target bucket. -/
theorem updateTileHash_none (s : TileHashState) (v : Nat)
    (hcv : s.cached v = none) :
    UpdatePosition s v =
      { buckets := fun b2 => if b2 = GetTileHash (s.tileOf v).1 (s.tileOf v).2 then
            v :: s.buckets (GetTileHash (s.tileOf v).1 (s.tileOf v).2)
          else s.buckets b2,
        cached := fun u => if u = v then
            some (GetTileHash (s.tileOf v).1 (s.tileOf v).2) else s.cached u,
        tileOf := s.tileOf } := by
  unfold UpdatePosition UpdateVehicleTileHash
  simp only [hcv, Bool.false_eq_true, if_false, reduceCtorEq]

theorem updateTileHash_some (s : TileHashState) (v : Nat) (b0 : Nat)
    (hcv : s.cached v = some b0)
    (hb0 : b0 ≠ GetTileHash (s.tileOf v).1 (s.tileOf v).2) :
    UpdatePosition s v =
      { buckets := fun b2 => if b2 = GetTileHash (s.tileOf v).1 (s.tileOf v).2 then
            v :: s.buckets (GetTileHash (s.tileOf v).1 (s.tileOf v).2)
          else if b2 = b0 then (s.buckets b0).erase v else s.buckets b2,
        cached := fun u => if u = v then
            some (GetTileHash (s.tileOf v).1 (s.tileOf v).2) else s.cached u,
        tileOf := s.tileOf } := by
  unfold UpdatePosition UpdateVehicleTileHash
  simp only [hcv, Bool.false_eq_true, if_false, Option.some.injEq]
  rw [if_neg hb0]
  simp only [if_neg (Ne.symm hb0)]

/-- C1: after `UpdatePosition` the vehicle is linked in exactly the bucket
`GetTileHash (TileX v.tile) (TileY v.tile)` and in no other bucket, the
cached bucket records it, other vehicles are untouched, well-formedness is
preserved, and the call is a no-op when the bucket is unchanged. -/
theorem updatePosition_hash_consistent (s : TileHashState) (v : Nat)
    (hwf : WfTileHash s) :
    ((UpdatePosition s v).cached v =
      some (GetTileHash (s.tileOf v).1 (s.tileOf v).2)) ∧
    ((UpdatePosition s v).buckets
      (GetTileHash (s.tileOf v).1 (s.tileOf v).2)).count v = 1 ∧
    (∀ b, b ≠ GetTileHash (s.tileOf v).1 (s.tileOf v).2 →
      ((UpdatePosition s v).buckets b).count v = 0) ∧
    (s.cached v = some (GetTileHash (s.tileOf v).1 (s.tileOf v).2) →
      UpdatePosition s v = s) ∧
    (∀ u, u ≠ v → (UpdatePosition s v).cached u = s.cached u) ∧
    (∀ u, u ≠ v → ∀ b, ((UpdatePosition s v).buckets b).count u =
      (s.buckets b).count u) ∧
    WfTileHash (UpdatePosition s v) := by
  set tgt := GetTileHash (s.tileOf v).1 (s.tileOf v).2 with htgt
  by_cases hsame : s.cached v = some tgt
  · have hid : UpdatePosition s v = s := by
      unfold UpdatePosition UpdateVehicleTileHash
      simp [hsame]
    rw [hid]
    refine ⟨hsame, ?_, ?_, fun _ => rfl, fun _ _ => rfl, fun _ _ _ => rfl, hwf⟩
    · rw [hwf v tgt, if_pos hsame]
    · intro b hb
      rw [hwf v b, if_neg]
      intro hc
      rw [hsame] at hc
      exact hb (Option.some_injective _ hc).symm
  · cases hcv : s.cached v with
    | none =>
      have hnotin : ∀ b, (s.buckets b).count v = 0 := by
        intro b
        rw [hwf v b, if_neg (by rw [hcv]; exact fun h => Option.noConfusion h)]
      rw [updateTileHash_none s v hcv, ← htgt]
      refine ⟨by simp, ?_, ?_, fun h => Option.noConfusion h, ?_, ?_, ?_⟩
      · simp [hnotin tgt]
      · intro b hb
        simp [hb, hnotin b]
      · intro u hu
        simp [hu]
      · intro u hu b
        by_cases hb : b = tgt <;> simp [hb, List.count_cons_of_ne hu]
      · intro u b
        by_cases huv : u = v
        · subst huv
          by_cases hb : b = tgt
          · simp [hb, hnotin tgt]
          · simp [hb, hnotin b, Ne.symm hb]
        · by_cases hb : b = tgt <;>
            simp [hb, huv, List.count_cons_of_ne huv, hwf u b, hwf u tgt]
    | some b0 =>
      have hb0 : b0 ≠ tgt := fun h => hsame (hcv.trans (by rw [h]))
      have hvin : (s.buckets b0).count v = 1 := by
        rw [hwf v b0, if_pos hcv]
      have hnotin : ∀ b, b ≠ b0 → (s.buckets b).count v = 0 := by
        intro b hb
        rw [hwf v b, if_neg]
        intro hc
        rw [hcv] at hc
        exact hb (Option.some_injective _ hc).symm
      rw [updateTileHash_some s v b0 hcv (htgt ▸ hb0), ← htgt]
      refine ⟨by simp, ?_, ?_,
        fun h => absurd (Option.some_injective _ h) hb0, ?_, ?_, ?_⟩
      · simp [hnotin tgt (Ne.symm hb0)]
      · intro b hb
        by_cases hbb : b = b0
        · subst hbb
          simp [hb, List.count_erase_self, hvin]
        · simp [hb, hbb, hnotin b hbb]
      · intro u hu
        simp [hu]
      · intro u hu b
        by_cases hb : b = tgt
        · simp [hb, hb0, List.count_cons_of_ne hu]
        · by_cases hbb : b = b0
          · simp [hb, hbb, hb0, List.count_erase_of_ne hu]
          · simp [hb, hbb]
      · intro u b
        by_cases huv : u = v
        · subst huv
          by_cases hb : b = tgt
          · subst hb
            simp [Ne.symm hb0, hnotin tgt (Ne.symm hb0)]
          · by_cases hbb : b = b0
            · subst hbb
              simp [hb, List.count_erase_self, hvin, Ne.symm hb]
            · simp [hb, hbb, hnotin b hbb, Ne.symm hb]
        · by_cases hb : b = tgt
          · simp [hb, hb0, huv, List.count_cons_of_ne huv, hwf u tgt]
          · by_cases hbb : b = b0
            · simp [hb, hbb, hb0, huv, List.count_erase_of_ne huv, hwf u b0]
            · simp [hb, hbb, huv, hwf u b]

/-- Witness for C1: a concrete two-vehicle state (vehicle 1 linked in the
bucket of tile (1,0), vehicle 2 unlinked); moving vehicle 1 to tile (2,3)
re-links it in exactly the new bucket. -/
theorem updatePosition_hash_consistent_witness :
    ((UpdatePosition
      { buckets := fun b => if b = GetTileHash 1 0 then [1] else [],
        cached := fun u => if u = 1 then some (GetTileHash 1 0) else none,
        tileOf := fun u => if u = 1 then (2, 3) else (0, 0) } 1).buckets
        (GetTileHash 2 3)).count 1 = 1 := by
  have hwf : WfTileHash
      { buckets := fun b => if b = GetTileHash 1 0 then [1] else [],
        cached := fun u => if u = 1 then some (GetTileHash 1 0) else none,
        tileOf := fun u => if u = 1 then (2, 3) else (0, 0) } := by
    intro u b
    by_cases hu : u = 1
    · by_cases hb : b = GetTileHash 1 0
      · simp [hu, hb]
      · simp [hu, hb, Ne.symm hb]
    · by_cases hb : b = GetTileHash 1 0
      · simp [hu, hb]
      · simp [hu, hb]
  exact (updatePosition_hash_consistent _ 1 hwf).2.1

/-- The `Increment`/`SkipFalseMatches` loop of `VehiclesOnTile::Iterator`
(vehicle.cpp:499-520) linearized over a bucket list: keep exactly the linked
vehicles whose `tile` equals the queried tile. -/
def tileFilter (s : TileHashState) (t : Nat × Nat) : List Nat → List Nat
  | [] => []
  | v :: rest => if s.tileOf v = t then v :: tileFilter s t rest else tileFilter s t rest

/-- `VehiclesOnTile` iteration: the bucket of `GetTileHash (TileX t) (TileY t)`
filtered by exact tile equality. -/
def VehiclesOnTile (s : TileHashState) (t : Nat × Nat) : List Nat :=
  tileFilter s t (s.buckets (GetTileHash t.1 t.2))

theorem count_tileFilter (s : TileHashState) (t : Nat × Nat) (l : List Nat) (v : Nat) :
    (tileFilter s t l).count v = if s.tileOf v = t then l.count v else 0 := by
  induction l with
  | nil => simp [tileFilter]
  | cons a rest ih =>
    by_cases ha : s.tileOf a = t
    · rw [tileFilter, if_pos ha]
      by_cases hv : a = v
      · subst hv
        rw [List.count_cons_self, ih, List.count_cons_self, if_pos ha, if_pos ha]
      · rw [List.count_cons_of_ne (fun h => hv h.symm), ih,
          List.count_cons_of_ne (fun h => hv h.symm)]
    · rw [tileFilter, if_neg ha, ih]
      by_cases hv : a = v
      · subst hv
        rw [if_neg ha, if_neg ha]
      · by_cases hvt : s.tileOf v = t
        · rw [if_pos hvt, if_pos hvt, List.count_cons_of_ne (fun h => hv h.symm)]
        · rw [if_neg hvt, if_neg hvt]

/-- C2: under the hash invariants, iterating `VehiclesOnTile t` yields a
vehicle exactly once iff it is linked in the hash and its tile equals `t`;
in particular every yielded vehicle's tile is `t` (bucket aliases are
skipped) and no vehicle is yielded twice. -/
theorem vehiclesOnTile_spec (s : TileHashState) (t : Nat × Nat)
    (hwf : WfTileHash s) (hcur : HashCurrent s) :
    (∀ v, (VehiclesOnTile s t).count v =
      if s.cached v ≠ none ∧ s.tileOf v = t then 1 else 0) ∧
    (∀ v, v ∈ VehiclesOnTile s t → s.tileOf v = t ∧ s.cached v ≠ none) := by
  have hcount : ∀ v, (VehiclesOnTile s t).count v =
      if s.cached v ≠ none ∧ s.tileOf v = t then 1 else 0 := by
    intro v
    rw [VehiclesOnTile, count_tileFilter]
    by_cases hvt : s.tileOf v = t
    · rw [if_pos hvt, hwf v (GetTileHash t.1 t.2)]
      cases hcv : s.cached v with
      | none => simp
      | some b =>
        have hb : b = GetTileHash t.1 t.2 := by
          have h2 := hcur v b hcv
          rw [hvt] at h2
          exact h2
        subst hb
        simp [hvt]
    · rw [if_neg hvt, if_neg (by rintro ⟨-, h⟩; exact hvt h)]
  refine ⟨hcount, fun v hv => ?_⟩
  have h1 : 0 < (VehiclesOnTile s t).count v := List.count_pos_iff.mpr hv
  rw [hcount v] at h1
  by_cases hc : s.cached v ≠ none ∧ s.tileOf v = t
  · exact ⟨hc.2, hc.1⟩
  · rw [if_neg hc] at h1; omega

/-- Witness for C2: in a concrete state with vehicle 1 on tile (1,0) and
vehicle 9 linked in the same bucket but on the aliasing tile (129,0),
querying tile (1,0) yields vehicle 1 exactly once and skips vehicle 9. -/
theorem vehiclesOnTile_spec_witness :
    (VehiclesOnTile
      { buckets := fun b => if b = GetTileHash 1 0 then [1, 9] else [],
        cached := fun u => if u = 1 ∨ u = 9 then some (GetTileHash 1 0) else none,
        tileOf := fun u => if u = 1 then (1, 0)
          else if u = 9 then (129, 0) else (0, 0) } (1, 0)).count 1 = 1 := by
  have hwf : WfTileHash
      { buckets := fun b => if b = GetTileHash 1 0 then [1, 9] else [],
        cached := fun u => if u = 1 ∨ u = 9 then some (GetTileHash 1 0) else none,
        tileOf := fun u => if u = 1 then (1, 0)
          else if u = 9 then (129, 0) else (0, 0) } := by
    intro u b
    by_cases hu1 : u = 1
    · by_cases hb : b = GetTileHash 1 0
      · simp [hu1, hb]
      · simp [hu1, hb, Ne.symm hb]
    · by_cases hu9 : u = 9
      · by_cases hb : b = GetTileHash 1 0
        · simp [hu1, hu9, hb]
        · simp [hu1, hu9, hb, Ne.symm hb]
      · by_cases hb : b = GetTileHash 1 0
        · simp [hu1, hu9, hb]
        · simp [hu1, hu9, hb]
  have hcur : HashCurrent
      { buckets := fun b => if b = GetTileHash 1 0 then [1, 9] else [],
        cached := fun u => if u = 1 ∨ u = 9 then some (GetTileHash 1 0) else none,
        tileOf := fun u => if u = 1 then (1, 0)
          else if u = 9 then (129, 0) else (0, 0) } := by
    intro u b hb
    by_cases hu1 : u = 1
    · subst hu1
      simp only [if_pos (Or.inl rfl)] at hb
      injection hb with hb2
      subst hb2
      decide
    · by_cases hu9 : u = 9
      · subst hu9
        simp only [if_pos (Or.inr rfl)] at hb
        injection hb with hb2
        subst hb2
        decide
      · simp [hu1, hu9] at hb
  exact ((vehiclesOnTile_spec _ (1, 0) hwf hcur).1 1).trans (by decide)

/-! ### C8 — FreeUnitIDGenerator (vehicle.cpp:1824-1869)

The growable `used_bitmap` is the list of its machine words. -/

/-- Modelled from the spec: `BitmapStorage` of `FreeUnitIDGenerator` is a
machine word of the bitmap allocator (declared outside this excerpt); taken
as 64 bits. -/
def BITMAP_SIZE : Nat := 64

/-- Modelled from the spec: `SetBit` of the bit-math helpers. -/
def SetBit (x i : Nat) : Nat := x ||| 2 ^ i

/-- Modelled from the spec: `ClrBit` of the bit-math helpers. -/
def ClrBit (x i : Nat) : Nat := if x.testBit i then x - 2 ^ i else x

/-- Modelled from the spec: `FindFirstBit` — index of the least set bit —
written with explicit fuel (the first argument) so it computes by structural
recursion; `fuel = n` always suffices. -/
def findFirstBitAux : Nat → Nat → Nat
  | 0, _ => 0
  | fuel + 1, n =>
    if n = 0 then 0
    else if n % 2 = 1 then 0
    else findFirstBitAux fuel (n / 2) + 1

def findFirstBit (n : Nat) : Nat := findFirstBitAux n n

/-- The word loop of `FreeUnitIDGenerator::NextID` (vehicle.cpp:1829):
`slot` counts the words already scanned (`std::distance` of the iterator);
a word whose complement is zero is fully used. -/
def NextIDgo : List Nat → Nat → Nat
  | [], slot => slot * BITMAP_SIZE + 1
  | w :: ws, slot =>
    if 2 ^ BITMAP_SIZE - 1 - w = 0 then NextIDgo ws (slot + 1)
    else slot * BITMAP_SIZE + findFirstBit (2 ^ BITMAP_SIZE - 1 - w) + 1

/-- `FreeUnitIDGenerator::NextID` (vehicle.cpp:1829): first unused unit
number, one past the bitmap when all tracked bits are used. -/
def NextID (used_bitmap : List Nat) : Nat := NextIDgo used_bitmap 0

/-- `FreeUnitIDGenerator::UseID` (vehicle.cpp:1844): mark a unit number
used, growing the bitmap to `slot + 1` words when needed; 0 and `UINT16_MAX`
are ignored. -/
def UseID (used_bitmap : List Nat) (index : Nat) : List Nat :=
  if index = 0 ∨ index = 65535 then used_bitmap
  else
    let i := index - 1
    let slot := i / BITMAP_SIZE
    let bm := if used_bitmap.length ≤ slot
      then used_bitmap ++ List.replicate (slot + 1 - used_bitmap.length) 0
      else used_bitmap
    bm.set slot (SetBit (bm.getD slot 0) (i % BITMAP_SIZE))

/-- `FreeUnitIDGenerator::ReleaseID` (vehicle.cpp:1861): clear the bit of a
unit number; 0 and `UINT16_MAX` are ignored. -/
def ReleaseID (used_bitmap : List Nat) (index : Nat) : List Nat :=
  if index = 0 ∨ index = 65535 then used_bitmap
  else
    used_bitmap.set ((index - 1) / BITMAP_SIZE)
      (ClrBit (used_bitmap.getD ((index - 1) / BITMAP_SIZE) 0)
        ((index - 1) % BITMAP_SIZE))

/-- Whether 0-based bit `i` of the bitmap is set (bits beyond the stored
words read as clear). -/
def usedBit (used_bitmap : List Nat) (i : Nat) : Bool :=
  (used_bitmap.getD (i / BITMAP_SIZE) 0).testBit (i % BITMAP_SIZE)

/-- Whether unit number `n` is currently marked used. -/
def usedID (used_bitmap : List Nat) (n : Nat) : Bool :=
  if n = 0 then false else usedBit used_bitmap (n - 1)

-- findFirstBit spec
theorem findFirstBitAux_spec : ∀ fuel n, n ≠ 0 → n ≤ fuel →
    n.testBit (findFirstBitAux fuel n) = true ∧
    ∀ j, j < findFirstBitAux fuel n → n.testBit j = false := by
  intro fuel
  induction fuel with
  | zero => intro n hn hf; omega
  | succ fuel ih =>
    intro n hn hf
    simp only [findFirstBitAux]
    rw [if_neg hn]
    by_cases hodd : n % 2 = 1
    · rw [if_pos hodd]
      refine ⟨?_, fun j hj => absurd hj (Nat.not_lt_zero j)⟩
      simp [Nat.testBit_zero, hodd]
    · rw [if_neg hodd]
      have hhalf : n / 2 ≠ 0 := by omega
      have hle : n / 2 ≤ fuel := by omega
      obtain ⟨h1, h2⟩ := ih (n / 2) hhalf hle
      constructor
      · rw [Nat.testBit_add_one]
        exact h1
      · intro j hj
        cases j with
        | zero => simp [Nat.testBit_zero]; omega
        | succ j2 =>
          rw [Nat.testBit_add_one]
          exact h2 j2 (by omega)

theorem findFirstBit_spec (n : Nat) (hn : n ≠ 0) :
    n.testBit (findFirstBit n) = true ∧
    ∀ j, j < findFirstBit n → n.testBit j = false :=
  findFirstBitAux_spec n n hn (Nat.le_refl n)

-- complement bits, via the core lemma on 2^n - (x+1)
theorem testBit_compl (n w i : Nat) (hw : w < 2 ^ n) :
    (2 ^ n - 1 - w).testBit i = (decide (i < n) && !(w.testBit i)) := by
  have h : 2 ^ n - 1 - w = 2 ^ n - (w + 1) := by omega
  rw [h, Nat.testBit_two_pow_sub_succ hw]

theorem findFirstBit_lt (a n : Nat) (ha : a ≠ 0) (hb : a < 2 ^ n) :
    findFirstBit a < n := by
  have h1 := (findFirstBit_spec a ha).1
  have h2 : 2 ^ findFirstBit a ≤ a := Nat.testBit_implies_ge h1
  by_contra hc
  push_neg at hc
  have : 2 ^ n ≤ 2 ^ findFirstBit a := Nat.pow_le_pow_right (by decide) hc
  omega

theorem usedBit_cons (w : Nat) (ws : List Nat) (i : Nat) :
    usedBit (w :: ws) i = if i < 64 then w.testBit i else usedBit ws (i - 64) := by
  unfold usedBit BITMAP_SIZE
  by_cases h : i < 64
  · rw [if_pos h, Nat.div_eq_of_lt h, Nat.mod_eq_of_lt h]
    rfl
  · rw [if_neg h]
    push_neg at h
    have h1 : i / 64 = (i - 64) / 64 + 1 := by omega
    have h2 : i % 64 = (i - 64) % 64 := by omega
    rw [h1, h2]
    rfl

theorem nextIDgo_shift (bm : List Nat) (slot : Nat) :
    NextIDgo bm (slot + 1) = NextIDgo bm slot + BITMAP_SIZE := by
  induction bm generalizing slot with
  | nil =>
    simp only [NextIDgo, BITMAP_SIZE]
    omega
  | cons w ws ih =>
    simp only [NextIDgo]
    by_cases h : 2 ^ BITMAP_SIZE - 1 - w = 0
    · rw [if_pos h, if_pos h, ih]
    · rw [if_neg h, if_neg h]
      simp only [BITMAP_SIZE]
      omega

theorem nextID_spec_aux (bm : List Nat) (hw : ∀ w ∈ bm, w < 2 ^ BITMAP_SIZE) :
    1 ≤ NextID bm ∧
    usedBit bm (NextID bm - 1) = false ∧
    (∀ j, j < NextID bm - 1 → usedBit bm j = true) := by
  induction bm with
  | nil =>
    refine ⟨by simp [NextID, NextIDgo], ?_, ?_⟩
    · simp [NextID, NextIDgo, usedBit]
    · intro j hj
      simp [NextID, NextIDgo] at hj
  | cons w ws ih =>
    have hww : w < 2 ^ BITMAP_SIZE := hw w (List.mem_cons_self w ws)
    have hws : ∀ u ∈ ws, u < 2 ^ BITMAP_SIZE := fun u hu => hw u (List.mem_cons_of_mem _ hu)
    obtain ⟨ih1, ih2, ih3⟩ := ih hws
    by_cases hfull : 2 ^ BITMAP_SIZE - 1 - w = 0
    · have hpow : 0 < 2 ^ BITMAP_SIZE := Nat.pos_pow_of_pos _ (by decide)
      have hwfull : w = 2 ^ BITMAP_SIZE - 1 := by omega
      have hnext : NextID (w :: ws) = NextID ws + BITMAP_SIZE := by
        show NextIDgo (w :: ws) 0 = NextIDgo ws 0 + BITMAP_SIZE
        simp only [NextIDgo]
        rw [if_pos hfull]
        exact nextIDgo_shift ws 0
      refine ⟨by omega, ?_, ?_⟩
      · rw [hnext, usedBit_cons, if_neg (by simp only [BITMAP_SIZE]; omega)]
        have harith : NextID ws + BITMAP_SIZE - 1 - 64 = NextID ws - 1 := by
          simp only [BITMAP_SIZE]; omega
        rw [harith]
        exact ih2
      · intro j hj
        rw [hnext] at hj
        rw [usedBit_cons]
        by_cases hj64 : j < 64
        · rw [if_pos hj64, hwfull, Nat.testBit_two_pow_sub_one]
          simp [BITMAP_SIZE, hj64]
        · rw [if_neg hj64]
          refine ih3 (j - 64) ?_
          simp only [BITMAP_SIZE] at hj
          omega
    · have havail : 2 ^ BITMAP_SIZE - 1 - w < 2 ^ BITMAP_SIZE := by
        have hpow : 0 < 2 ^ BITMAP_SIZE := Nat.pos_pow_of_pos _ (by decide)
        omega
      have hf : findFirstBit (2 ^ BITMAP_SIZE - 1 - w) < BITMAP_SIZE :=
        findFirstBit_lt _ _ hfull havail
      have hnext : NextID (w :: ws) =
          findFirstBit (2 ^ BITMAP_SIZE - 1 - w) + 1 := by
        show NextIDgo (w :: ws) 0 = _
        simp only [NextIDgo]
        rw [if_neg hfull]
        simp
      obtain ⟨hbit, hlow⟩ := findFirstBit_spec _ hfull
      refine ⟨by omega, ?_, ?_⟩
      · rw [hnext, usedBit_cons]
        simp only [Nat.add_sub_cancel]
        rw [if_pos (show findFirstBit (2 ^ BITMAP_SIZE - 1 - w) < 64 from hf)]
        rw [testBit_compl BITMAP_SIZE w _ hww] at hbit
        simp only [decide_eq_true_eq, Bool.and_eq_true, decide_eq_true_iff] at hbit
        cases hwb : w.testBit (findFirstBit (2 ^ BITMAP_SIZE - 1 - w)) with
        | false => rfl
        | true => rw [hwb] at hbit; simp at hbit
      · intro j hj
        rw [hnext] at hj
        simp only [Nat.add_sub_cancel] at hj
        have hf64 : findFirstBit (2 ^ BITMAP_SIZE - 1 - w) < 64 := hf
        rw [usedBit_cons, if_pos (by omega)]
        have hjb := hlow j hj
        rw [testBit_compl BITMAP_SIZE w j hww] at hjb
        have hj64 : j < BITMAP_SIZE := by
          simp only [BITMAP_SIZE]
          omega
        simp [hj64] at hjb
        exact hjb

/-- C8: `NextID` always returns the smallest positive unit number not
marked used in the bitmap (one past the end when all tracked bits are used);
after marking 1..5 used and releasing 3, `NextID` returns 3, and only after
3 is used again does it return 6. -/
theorem nextID_spec (bm : List Nat) (hw : ∀ w ∈ bm, w < 2 ^ BITMAP_SIZE) :
    1 ≤ NextID bm ∧
    usedID bm (NextID bm) = false ∧
    (∀ m, 1 ≤ m → m < NextID bm → usedID bm m = true) ∧
    NextID (UseID (UseID (UseID (UseID (UseID [] 1) 2) 3) 4) 5) = 6 ∧
    NextID (ReleaseID (UseID (UseID (UseID (UseID (UseID [] 1) 2) 3) 4) 5) 3) = 3 ∧
    NextID (UseID (ReleaseID
      (UseID (UseID (UseID (UseID (UseID [] 1) 2) 3) 4) 5) 3) 3) = 6 := by
  obtain ⟨h1, h2, h3⟩ := nextID_spec_aux bm hw
  refine ⟨h1, ?_, ?_, by decide, by decide, by decide⟩
  · unfold usedID
    rw [if_neg (by omega)]
    exact h2
  · intro m hm hlt
    unfold usedID
    rw [if_neg (by omega)]
    exact h3 (m - 1) (by omega)

/-- Witness for C8 at the bitmap `[5]` (bits 0 and 2 used): `NextID` is not a
used id. -/
theorem nextID_spec_witness : usedID [5] (NextID [5]) = false :=
  (nextID_spec [5] (by decide)).2.1

/-! ### C5, C9, C10 — the per-tick scheduler, depot entry and the deferred
autoreplace pass (vehicle.cpp:891-902, 954-1086, 1598-1626) -/

/-- `_vehicles_to_autoreplace` is a `std::map<VehicleID, bool>`; it is
modelled as its association list sorted by key, and `mapSet` is
`map[k] = b` (insert keeping the order, or overwrite). -/
def mapSet : List (Nat × Bool) → Nat → Bool → List (Nat × Bool)
  | [], k, b => [(k, b)]
  | (k2, b2) :: rest, k, b =>
    if k < k2 then (k, b) :: (k2, b2) :: rest
    else if k = k2 then (k, b) :: rest
    else (k2, b2) :: mapSet rest k b

/-- The `std::map` representation invariant: strictly increasing keys. -/
def MapKeysSorted (m : List (Nat × Bool)) : Prop :=
  (m.map Prod.fst).Pairwise (· < ·)

theorem lookup_mapSet_self (m : List (Nat × Bool)) (k : Nat) (b : Bool) :
    (mapSet m k b).lookup k = some b := by
  induction m with
  | nil => simp [mapSet, List.lookup]
  | cons e rest ih =>
    obtain ⟨k2, b2⟩ := e
    by_cases h1 : k < k2
    · simp [mapSet, h1, List.lookup]
    · by_cases h2 : k = k2
      · simp [mapSet, h1, h2, List.lookup]
      · simp only [mapSet, if_neg h1, if_neg h2]
        simp only [List.lookup, beq_eq_false_iff_ne.mpr h2]
        exact ih

theorem lookup_mapSet_ne (m : List (Nat × Bool)) (k k3 : Nat) (b : Bool)
    (hne : k3 ≠ k) : (mapSet m k b).lookup k3 = m.lookup k3 := by
  induction m with
  | nil => simp [mapSet, List.lookup, beq_eq_false_iff_ne.mpr hne]
  | cons e rest ih =>
    obtain ⟨k2, b2⟩ := e
    by_cases h1 : k < k2
    · simp only [mapSet, if_pos h1]
      simp only [List.lookup, beq_eq_false_iff_ne.mpr hne]
    · by_cases h2 : k = k2
      · subst h2
        simp only [mapSet, if_neg h1, if_pos rfl]
        simp only [List.lookup, beq_eq_false_iff_ne.mpr hne]
      · simp only [mapSet, if_neg h1, if_neg h2]
        by_cases h3 : k3 = k2
        · subst h3
          simp [List.lookup]
        · simp only [List.lookup, beq_eq_false_iff_ne.mpr h3]
          exact ih

theorem mem_keys_mapSet (m : List (Nat × Bool)) (k : Nat) (b : Bool) :
    ∀ x, x ∈ (mapSet m k b).map Prod.fst → x = k ∨ x ∈ m.map Prod.fst := by
  induction m with
  | nil => intro x hx; simp [mapSet] at hx; exact Or.inl hx
  | cons e rest ih =>
    obtain ⟨k2, b2⟩ := e
    intro x hx
    by_cases h1 : k < k2
    · simp only [mapSet, if_pos h1, List.map_cons] at hx
      rcases List.mem_cons.mp hx with hx | hx
      · exact Or.inl hx
      · exact Or.inr (by simpa using hx)
    · by_cases h2 : k = k2
      · simp only [mapSet, if_neg h1, if_pos h2, List.map_cons] at hx
        rcases List.mem_cons.mp hx with hx | hx
        · exact Or.inl hx
        · exact Or.inr (by simp; right; simpa using hx)
      · simp only [mapSet, if_neg h1, if_neg h2, List.map_cons] at hx
        rcases List.mem_cons.mp hx with hx | hx
        · exact Or.inr (by simp [hx])
        · rcases ih x (by simpa using hx) with h | h
          · exact Or.inl h
          · exact Or.inr (by simp at h ⊢; right; exact h)

theorem mapSet_sorted (m : List (Nat × Bool)) (k : Nat) (b : Bool)
    (hs : MapKeysSorted m) : MapKeysSorted (mapSet m k b) := by
  induction m with
  | nil => simp [mapSet, MapKeysSorted]
  | cons e rest ih =>
    obtain ⟨k2, b2⟩ := e
    unfold MapKeysSorted at hs
    rw [List.map_cons, List.pairwise_cons] at hs
    obtain ⟨hall, hrest⟩ := hs
    by_cases h1 : k < k2
    · unfold MapKeysSorted
      simp only [mapSet, if_pos h1, List.map_cons]
      rw [List.pairwise_cons]
      constructor
      · intro x hx
        rcases List.mem_cons.mp hx with hx | hx
        · omega
        · have := hall x hx
          omega
      · rw [List.pairwise_cons]
        exact ⟨hall, hrest⟩
    · by_cases h2 : k = k2
      · subst h2
        unfold MapKeysSorted
        simp only [mapSet, if_neg h1, eq_self_iff_true, if_true]
        rw [List.map_cons, List.pairwise_cons]
        exact ⟨hall, hrest⟩
      · unfold MapKeysSorted
        simp only [mapSet, if_neg h1, if_neg h2, List.map_cons]
        rw [List.pairwise_cons]
        have hks : k2 < k := by omega
        constructor
        · intro x hx
          rcases mem_keys_mapSet rest k b x hx with h | h
          · omega
          · exact hall x h
        · exact ih hrest

theorem lookup_eq_none_of_not_mem_keys (m : List (Nat × Bool)) (k : Nat)
    (h : k ∉ m.map Prod.fst) : m.lookup k = none := by
  induction m with
  | nil => simp [List.lookup]
  | cons e rest ih =>
    obtain ⟨k2, b2⟩ := e
    simp only [List.map_cons, List.mem_cons] at h
    push_neg at h
    simp only [List.lookup, beq_eq_false_iff_ne.mpr h.1]
    exact ih h.2

/-- `VehicleEnteredDepotThisTick` (vehicle.cpp:891): record in the
autoreplace map whether the vehicle was in motion (`!Stopped`), and ALWAYS
set the Stopped flag. -/
def VehicleEnteredDepotThisTick (m : List (Nat × Bool)) (stopped : Nat → Bool)
    (vid : Nat) : List (Nat × Bool) × (Nat → Bool) :=
  (mapSet m vid (!stopped vid), fun u => if u = vid then true else stopped u)

/-- `_vehicles_to_autoreplace[v->index] = false` — executed by
`VehicleEnterDepot` on a failed refit (vehicle.cpp:1604) and on a halt depot
order (vehicle.cpp:1625): the restart is cancelled. -/
def cancelRestart (m : List (Nat × Bool)) (vid : Nat) : List (Nat × Bool) :=
  mapSet m vid false

/-- The `if (it.second) v->vehstatus.Reset(VehState::Stopped)` step of the
end-of-tick autoreplace loop (vehicle.cpp:1043-1051), folded over the map. -/
def processAutoreplaceStops (m : List (Nat × Bool)) (stopped : Nat → Bool) :
    Nat → Bool :=
  m.foldl (fun st e => if e.2 then fun u => if u = e.1 then false else st u else st)
    stopped

theorem processAutoreplaceStops_spec (m : List (Nat × Bool)) :
    ∀ stopped : Nat → Bool, (m.map Prod.fst).Nodup → ∀ u,
    processAutoreplaceStops m stopped u =
      if m.lookup u = some true then false else stopped u := by
  induction m with
  | nil => intro st hnd u; simp [processAutoreplaceStops, List.lookup]
  | cons e rest ih =>
    intro st hnd u
    obtain ⟨k, bv⟩ := e
    rw [List.map_cons, List.nodup_cons] at hnd
    obtain ⟨hk, hr⟩ := hnd
    have hstep : processAutoreplaceStops ((k, bv) :: rest) st =
        processAutoreplaceStops rest
          (if bv then (fun u2 => if u2 = k then false else st u2) else st) := rfl
    rw [hstep, ih _ hr u]
    by_cases hu : u = k
    · subst hu
      have hlook : rest.lookup u = none := lookup_eq_none_of_not_mem_keys rest u hk
      rw [hlook]
      simp only [List.lookup, beq_self_eq_true]
      cases bv <;> simp
    · simp only [List.lookup, beq_eq_false_iff_ne.mpr hu]
      cases bv <;> simp [hu]

/-- C10: depot entry sets Stopped unconditionally and records `!Stopped` at
entry; end-of-tick processing clears Stopped exactly for entries still
`true`; consequently an uncancelled vehicle ends with its original Stopped
state and a cancelled one stays stopped. -/
theorem vehicleEnteredDepot_stopped_spec (m : List (Nat × Bool))
    (stopped : Nat → Bool) (vid : Nat) (hs : MapKeysSorted m) :
    ((VehicleEnteredDepotThisTick m stopped vid).2 vid = true) ∧
    ((VehicleEnteredDepotThisTick m stopped vid).1.lookup vid =
      some (!stopped vid)) ∧
    (∀ u, processAutoreplaceStops (VehicleEnteredDepotThisTick m stopped vid).1
        (VehicleEnteredDepotThisTick m stopped vid).2 u =
      if (VehicleEnteredDepotThisTick m stopped vid).1.lookup u = some true
      then false
      else (VehicleEnteredDepotThisTick m stopped vid).2 u) ∧
    (processAutoreplaceStops (VehicleEnteredDepotThisTick m stopped vid).1
        (VehicleEnteredDepotThisTick m stopped vid).2 vid = stopped vid) ∧
    (processAutoreplaceStops
        (cancelRestart (VehicleEnteredDepotThisTick m stopped vid).1 vid)
        (VehicleEnteredDepotThisTick m stopped vid).2 vid = true) := by
  have hs1 : MapKeysSorted (mapSet m vid (!stopped vid)) :=
    mapSet_sorted m vid _ hs
  have hnd1 : ((mapSet m vid (!stopped vid)).map Prod.fst).Nodup :=
    hs1.imp (fun h => Nat.ne_of_lt h)
  have hproc := processAutoreplaceStops_spec (mapSet m vid (!stopped vid))
    (fun u => if u = vid then true else stopped u) hnd1
  refine ⟨by simp [VehicleEnteredDepotThisTick], lookup_mapSet_self m vid _,
    hproc, ?_, ?_⟩
  · show processAutoreplaceStops (mapSet m vid (!stopped vid))
        (fun u => if u = vid then true else stopped u) vid = stopped vid
    rw [hproc vid, lookup_mapSet_self m vid _]
    cases hst : stopped vid <;> simp
  · have hs2 : MapKeysSorted (mapSet (mapSet m vid (!stopped vid)) vid false) :=
      mapSet_sorted _ vid _ hs1
    have hnd2 := hs2.imp (fun h => Nat.ne_of_lt h)
    have hproc2 := processAutoreplaceStops_spec _
      (fun u => if u = vid then true else stopped u) hnd2 vid
    show processAutoreplaceStops (mapSet (mapSet m vid (!stopped vid)) vid false)
        (fun u => if u = vid then true else stopped u) vid = true
    rw [hproc2, lookup_mapSet_self]
    simp

/-- Witness for C10: a moving vehicle entering a depot with no cancellation
is running again after end-of-tick processing. -/
theorem vehicleEnteredDepot_stopped_spec_witness :
    processAutoreplaceStops
      (VehicleEnteredDepotThisTick [] (fun _ => false) 4).1
      (VehicleEnteredDepotThisTick [] (fun _ => false) 4).2 4 = false :=
  (vehicleEnteredDepot_stopped_spec [] (fun _ => false) 4
    (by simp [MapKeysSorted])).2.2.2.1

/-- The `StringID` error classes distinguished by the autoreplace loop. -/
inductive ARError where
  | nothingToDo
  | invalidString
  | notEnoughCash
  | moneyLimit
  | trainTooLong
  | other (id : Nat)
deriving DecidableEq

/-- A `CommandCost` as the autoreplace loop reads it. -/
inductive ARResult where
  | success (cost : Int)
  | failure (err : ARError)
deriving DecidableEq

/-- The user-visible effects emitted by the failure paths. -/
inductive ARNews where
  | costAnimation (vid : Nat) (cost : Int)
  | adviceTrainTooLong (vid : Nat)
  | adviceAutorenewFailed (vid : Nat) (err : ARError)
  | adviceRefitFailed (vid : Nat)
deriving DecidableEq

/-- The tail of one autoreplace-loop iteration (vehicle.cpp:1060-1083):
nothing for non-local companies; a cost animation on success; silence for
"nothing to do" and empty errors; the money-limit advisory for insufficient
cash; the dedicated headline for the train-too-long error; a generic
autorenew-failed advisory otherwise. -/
def autoreplaceEntryNews (vid : Nat) (isLocal : Bool) (res : ARResult) :
    List ARNews :=
  if isLocal = false then []
  else match res with
    | .success cost => [.costAnimation vid cost]
    | .failure err =>
      if err = .nothingToDo ∨ err = .invalidString then []
      else
        let err2 := if err = .notEnoughCash then ARError.moneyLimit else err
        if err2 = .trainTooLong then [.adviceTrainTooLong vid]
        else [.adviceAutorenewFailed vid err2]

/-- The end-of-tick autoreplace loop over the whole map: accumulated news
and the number of commands executed (the loop never aborts early). -/
def autoreplacePass (m : List (Nat × Bool)) (isLocal : Nat → Bool)
    (res : Nat → ARResult) : List ARNews × Nat :=
  m.foldl (fun acc e =>
    (acc.1 ++ autoreplaceEntryNews e.1 (isLocal e.1) (res e.1), acc.2 + 1))
    ([], 0)

/-- The refit-failure branch of `VehicleEnterDepot` (vehicle.cpp:1603-1610):
cancel the autoreplace restart and, for the local company, an advisory. -/
def refitFailurePath (m : List (Nat × Bool)) (vid : Nat) (isLocal : Bool) :
    List (Nat × Bool) × List ARNews :=
  (mapSet m vid false, if isLocal then [ARNews.adviceRefitFailed vid] else [])

theorem autoreplacePass_go (m : List (Nat × Bool)) (isLocal : Nat → Bool)
    (res : Nat → ARResult) :
    ∀ acc n, m.foldl (fun acc e =>
        (acc.1 ++ autoreplaceEntryNews e.1 (isLocal e.1) (res e.1), acc.2 + 1))
        (acc, n) =
      (acc ++ m.flatMap (fun e => autoreplaceEntryNews e.1 (isLocal e.1) (res e.1)),
        n + m.length) := by
  induction m with
  | nil => intro acc n; simp
  | cons e rest ih =>
    intro acc n
    rw [List.foldl_cons, ih]
    simp
    omega

/-- C9: a failed refit on depot entry sets the map entry to false and emits
an advisory only for the local company; the autoreplace loop executes one
command per entry regardless of failures (never aborts the tick), its news
is the concatenation over entries, and errors are classified: nothing-to-do
and empty errors silent, insufficient cash surfaced as the money-limit
advisory, anything else as an advisory news item. -/
theorem autoreplaceFailure_spec (m : List (Nat × Bool)) (vid : Nat)
    (isLocal : Bool) (isLocalOf : Nat → Bool) (res : Nat → ARResult)
    (cost : Int) (eid : Nat) :
    ((refitFailurePath m vid isLocal).1.lookup vid = some false) ∧
    ((refitFailurePath m vid isLocal).2 =
      if isLocal then [ARNews.adviceRefitFailed vid] else []) ∧
    ((autoreplacePass m isLocalOf res).2 = m.length) ∧
    ((autoreplacePass m isLocalOf res).1 =
      m.flatMap (fun e => autoreplaceEntryNews e.1 (isLocalOf e.1) (res e.1))) ∧
    (autoreplaceEntryNews vid false (res vid) = []) ∧
    (autoreplaceEntryNews vid true (.failure .nothingToDo) = []) ∧
    (autoreplaceEntryNews vid true (.failure .invalidString) = []) ∧
    (autoreplaceEntryNews vid true (.failure .notEnoughCash) =
      [ARNews.adviceAutorenewFailed vid ARError.moneyLimit]) ∧
    (autoreplaceEntryNews vid true (.failure .trainTooLong) =
      [ARNews.adviceTrainTooLong vid]) ∧
    (autoreplaceEntryNews vid true (.failure (.other eid)) =
      [ARNews.adviceAutorenewFailed vid (ARError.other eid)]) ∧
    (autoreplaceEntryNews vid true (.success cost) =
      [ARNews.costAnimation vid cost]) := by
  refine ⟨lookup_mapSet_self m vid false, rfl, ?_, ?_, ?_, ?_, ?_, ?_, ?_, ?_, ?_⟩
  · rw [show autoreplacePass m isLocalOf res = _ from autoreplacePass_go m isLocalOf res [] 0]
    simp
  · rw [show autoreplacePass m isLocalOf res = _ from autoreplacePass_go m isLocalOf res [] 0]
    simp
  · simp [autoreplaceEntryNews]
  · simp [autoreplaceEntryNews]
  · simp [autoreplaceEntryNews]
  · simp [autoreplaceEntryNews]
  · simp [autoreplaceEntryNews]
  · simp [autoreplaceEntryNews]
  · simp [autoreplaceEntryNews]

/-- Observable events of one `CallVehicleTicks` invocation, in order:
per-vehicle movement ticks, then the deferred autoreplace pass with its
company switches, then the company restore. -/
inductive TickEvent where
  | tick (vid : Nat)
  | changeCompany (c : Nat)
  | autoreplace (vid : Nat) (company : Nat)
  | restoreCompany (c : Nat)
deriving DecidableEq

/-- A live vehicle of the pool as the scheduler sees it: its index, owner,
and what its (type-specific, external) `Tick` does this tick — whether it
completes depot entry and the Stopped flag at that moment. -/
structure PoolVehicle where
  index : Nat
  owner : Nat
  entersDepot : Bool
  stoppedAtEntry : Bool
deriving DecidableEq

/-- `_vehicles_to_autoreplace` as built during the main loop: each vehicle
whose tick completes depot entry registers itself via
`VehicleEnteredDepotThisTick`. -/
def buildAutoreplaceMap : List PoolVehicle → List (Nat × Bool) → List (Nat × Bool)
  | [], m => m
  | v :: vs, m =>
    buildAutoreplaceMap vs
      (if v.entersDepot then mapSet m v.index (!v.stoppedAtEntry) else m)

/-- One iteration of the deferred autoreplace loop (vehicle.cpp:1043):
`cur_company.Change(v->owner)` followed by the autoreplace command. -/
def autoreplacePairEvents (ownerOf : Nat → Nat) (e : Nat × Bool) : List TickEvent :=
  [TickEvent.changeCompany (ownerOf e.1), TickEvent.autoreplace e.1 (ownerOf e.1)]

/-- `CallVehicleTicks` (vehicle.cpp:954-1086) as its event trace: the main
loop ticks every pool vehicle once in pool order; afterwards the deferred
autoreplace map is processed under per-vehicle company switches; finally
`cur_company.Restore()`. -/
def CallVehicleTicks (vs : List PoolVehicle) (ownerOf : Nat → Nat) (cur : Nat) :
    List TickEvent :=
  (vs.map (fun v => TickEvent.tick v.index)) ++
  ((buildAutoreplaceMap vs []).flatMap (autoreplacePairEvents ownerOf)) ++
  [TickEvent.restoreCompany cur]

/-- Effect of one event on `_current_company`. -/
def companyEffect (e : TickEvent) (cur : Nat) : Nat :=
  match e with
  | .changeCompany c => c
  | .restoreCompany c => c
  | _ => cur

/-- `_current_company` after executing a prefix of the trace. -/
def companyAt (cur : Nat) : List TickEvent → Nat
  | [] => cur
  | e :: rest => companyAt (companyEffect e cur) rest

def tickVid : TickEvent → Option Nat
  | .tick v => some v
  | _ => none

def autoVid : TickEvent → Option Nat
  | .autoreplace v _ => some v
  | _ => none

theorem companyAt_append (x : Nat) (a b : List TickEvent) :
    companyAt x (a ++ b) = companyAt (companyAt x a) b := by
  induction a generalizing x with
  | nil => rfl
  | cons e rest ih =>
    rw [List.cons_append, companyAt, companyAt, ih]

theorem companyAt_ticks (x : Nat) (vs : List PoolVehicle) :
    companyAt x (vs.map (fun v => TickEvent.tick v.index)) = x := by
  induction vs generalizing x with
  | nil => rfl
  | cons v rest ih =>
    rw [List.map_cons, companyAt]
    exact ih x

theorem no_tick_in_pairs (ownerOf : Nat → Nat) (m : List (Nat × Bool)) :
    ∀ e ∈ m.flatMap (autoreplacePairEvents ownerOf), tickVid e = none := by
  induction m with
  | nil => intro e he; simp at he
  | cons p rest ih =>
    intro e he
    rw [List.flatMap_cons, List.mem_append] at he
    rcases he with he | he
    · simp only [autoreplacePairEvents] at he
      rcases List.mem_cons.mp he with he | he
      · rw [he]; rfl
      · rcases List.mem_cons.mp he with he | he
        · rw [he]; rfl
        · simp at he
    · exact ih e he

theorem no_auto_in_ticks (vs : List PoolVehicle) :
    ∀ e ∈ vs.map (fun v => TickEvent.tick v.index), autoVid e = none := by
  intro e he
  rcases List.mem_map.mp he with ⟨v, -, hv⟩
  rw [← hv]
  rfl

theorem filterMap_tick_pairs (ownerOf : Nat → Nat) (m : List (Nat × Bool)) :
    (m.flatMap (autoreplacePairEvents ownerOf)).filterMap tickVid = [] := by
  rw [List.filterMap_eq_nil_iff.mpr]
  intro e he
  exact no_tick_in_pairs ownerOf m e he

theorem filterMap_auto_pairs (ownerOf : Nat → Nat) (m : List (Nat × Bool)) :
    (m.flatMap (autoreplacePairEvents ownerOf)).filterMap autoVid =
      m.map Prod.fst := by
  induction m with
  | nil => rfl
  | cons p rest ih =>
    rw [List.flatMap_cons, List.filterMap_append, ih]
    rfl

theorem pairs_auto_company (ownerOf : Nat → Nat) (m : List (Nat × Bool)) :
    ∀ x j vid c,
      (m.flatMap (autoreplacePairEvents ownerOf))[j]? =
        some (TickEvent.autoreplace vid c) →
      c = ownerOf vid ∧
      companyAt x ((m.flatMap (autoreplacePairEvents ownerOf)).take j) =
        ownerOf vid := by
  induction m with
  | nil => intro x j vid c he; simp at he
  | cons p rest ih =>
    intro x j vid c he
    have hflat : (p :: rest).flatMap (autoreplacePairEvents ownerOf) =
        TickEvent.changeCompany (ownerOf p.1) ::
        TickEvent.autoreplace p.1 (ownerOf p.1) ::
        rest.flatMap (autoreplacePairEvents ownerOf) := rfl
    rw [hflat] at he ⊢
    cases j with
    | zero =>
      rw [List.getElem?_cons_zero] at he
      exact absurd he (by simp)
    | succ j1 =>
      cases j1 with
      | zero =>
        rw [List.getElem?_cons_succ, List.getElem?_cons_zero] at he
        injection he with he2
        injection he2 with h1 h2
        subst h1
        subst h2
        refine ⟨rfl, ?_⟩
        rw [List.take_succ_cons, List.take_zero]
        rfl
      | succ j2 =>
        rw [List.getElem?_cons_succ, List.getElem?_cons_succ] at he
        obtain ⟨hc, hcomp⟩ := ih (ownerOf p.1) j2 vid c he
        refine ⟨hc, ?_⟩
        rw [List.take_succ_cons, List.take_succ_cons, companyAt, companyAt]
        exact hcomp

/-- C5: in one `CallVehicleTicks` trace every live vehicle is ticked exactly
once in pool order; every movement tick precedes every deferred autoreplace
command; every map entry is processed; each autoreplace command runs with the
current company switched to the owner of its vehicle; and the original
current company is restored at the end of the pass. -/
theorem callVehicleTicks_spec (vs : List PoolVehicle) (ownerOf : Nat → Nat)
    (cur : Nat) :
    ((CallVehicleTicks vs ownerOf cur).filterMap tickVid =
      vs.map PoolVehicle.index) ∧
    ((CallVehicleTicks vs ownerOf cur).filterMap autoVid =
      (buildAutoreplaceMap vs []).map Prod.fst) ∧
    (∀ (i j : Nat) (e1 e2 : TickEvent),
      (CallVehicleTicks vs ownerOf cur)[i]? = some e1 →
      (CallVehicleTicks vs ownerOf cur)[j]? = some e2 →
      (tickVid e1).isSome = true → (autoVid e2).isSome = true → i < j) ∧
    (∀ (j vid c : Nat), (CallVehicleTicks vs ownerOf cur)[j]? =
        some (TickEvent.autoreplace vid c) →
      c = ownerOf vid ∧
      companyAt cur ((CallVehicleTicks vs ownerOf cur).take j) = ownerOf vid) ∧
    (companyAt cur (CallVehicleTicks vs ownerOf cur) = cur) := by
  set A := vs.map (fun v => TickEvent.tick v.index) with hA
  set B := (buildAutoreplaceMap vs []).flatMap (autoreplacePairEvents ownerOf)
    with hB
  have hlenA : A.length = vs.length := by rw [hA, List.length_map]
  have ht : CallVehicleTicks vs ownerOf cur =
      A ++ (B ++ [TickEvent.restoreCompany cur]) := by
    rw [CallVehicleTicks, List.append_assoc]
  have htickpos : ∀ i e1, (CallVehicleTicks vs ownerOf cur)[i]? = some e1 →
      (tickVid e1).isSome = true → i < vs.length := by
    intro i e1 hi hsome
    by_contra hc
    push_neg at hc
    rw [ht, List.getElem?_append_right (show A.length ≤ i by omega)] at hi
    have hmem : e1 ∈ B ++ [TickEvent.restoreCompany cur] :=
      List.getElem?_mem hi
    rcases List.mem_append.mp hmem with hm | hm
    · rw [no_tick_in_pairs ownerOf _ e1 hm] at hsome
      exact Bool.noConfusion hsome
    · rcases List.mem_singleton.mp hm with rfl
      exact Bool.noConfusion hsome
  have hautopos : ∀ j e2, (CallVehicleTicks vs ownerOf cur)[j]? = some e2 →
      (autoVid e2).isSome = true → vs.length ≤ j := by
    intro j e2 hj hsome
    by_contra hc
    push_neg at hc
    rw [ht, List.getElem?_append_left (show j < A.length by omega)] at hj
    have hmem : e2 ∈ A := List.getElem?_mem hj
    rw [no_auto_in_ticks vs e2 hmem] at hsome
    exact Bool.noConfusion hsome
  refine ⟨?_, ?_, ?_, ?_, ?_⟩
  · rw [ht, List.filterMap_append, List.filterMap_append, filterMap_tick_pairs]
    simp only [hA, List.filterMap_map]
    rw [show (tickVid ∘ fun v => TickEvent.tick v.index) =
        some ∘ PoolVehicle.index from rfl]
    rw [List.filterMap_eq_map]
    simp [tickVid]
  · rw [ht, List.filterMap_append, List.filterMap_append, filterMap_auto_pairs]
    have hta : A.filterMap autoVid = [] := by
      rw [List.filterMap_eq_nil_iff]
      exact no_auto_in_ticks vs
    rw [hta]
    simp [autoVid]
  · intro i j e1 e2 hi hj h1 h2
    have := htickpos i e1 hi h1
    have := hautopos j e2 hj h2
    omega
  · intro j vid c he
    have hge : vs.length ≤ j := hautopos j _ he (by rfl)
    rw [ht, List.getElem?_append_right (show A.length ≤ j by omega)] at he
    rw [hlenA] at he
    by_cases hlt : j - vs.length < B.length
    · rw [List.getElem?_append_left hlt] at he
      obtain ⟨hc, hcomp⟩ :=
        pairs_auto_company ownerOf (buildAutoreplaceMap vs []) cur
          (j - vs.length) vid c he
      refine ⟨hc, ?_⟩
      rw [ht, List.take_append_eq_append_take,
        List.take_of_length_le (by omega), companyAt_append, companyAt_ticks,
        hlenA, List.take_append_eq_append_take]
      have hz : j - vs.length - B.length = 0 := by omega
      rw [hz, List.take_zero, List.append_nil]
      exact hcomp
    · rw [List.getElem?_append_right
          (show B.length ≤ j - vs.length by omega)] at he
      cases hk : j - vs.length - B.length with
      | zero => rw [hk] at he; simp at he
      | succ k2 => rw [hk] at he; simp at he
  · rw [ht, companyAt_append, companyAt_append, companyAt_ticks]
    rfl

/-- Witness for C5 on a one-vehicle pool. -/
theorem callVehicleTicks_spec_witness :
    companyAt 7 (CallVehicleTicks
      [{ index := 1, owner := 3, entersDepot := true, stoppedAtEntry := false }]
      (fun _ => 3) 7) = 7 :=
  (callVehicleTicks_spec
    [{ index := 1, owner := 3, entersDepot := true, stoppedAtEntry := false }]
    (fun _ => 3) 7).2.2.2.2

/-! ### C3 — Vehicle::SetNext and consist `first` propagation
(vehicle.cpp:2911-2933) -/

/-- The consist-chain pointers of the vehicle pool: `next`, `previous` and
`first`, as total maps over vehicle indices (`none` = nullptr; `first` is
always a vehicle index). -/
structure ChainState where
  nxt : Nat → Option Nat
  prv : Nat → Option Nat
  fst : Nat → Nat

/-- The propagation loop `for (v = start; v != nullptr; v = v->Next())
v->first = f` of `Vehicle::SetNext`, with explicit fuel bounding the walk
(the source relies on chains being finite and acyclic; under the acyclicity
hypotheses of the theorems below, `this->first` read inside the loop is the
constant passed here). -/
def setFirstAll : ChainState → Nat → Nat → Option Nat → ChainState
  | s, _, _, none => s
  | s, _, 0, some _ => s
  | s, f, fuel + 1, some v =>
    setFirstAll { s with fst := fun u => if u = v then f else s.fst u } f fuel (s.nxt v)

/-- `Vehicle::SetNext` (vehicle.cpp:2911-2933), step for step: if there was
an old successor, re-point `first` of its whole chain to it and clear its
`previous`; set `this->next`; if the new next had a predecessor, cut that
predecessor's `next`; set the new next's `previous`; propagate
`this->first` down the entire new tail. -/
def SetNext (fuel : Nat) (s : ChainState) (v : Nat) (newNext : Option Nat) : ChainState :=
  let s1 := match s.nxt v with
    | some old =>
        let t := setFirstAll s old fuel (some old)
        { t with prv := fun u => if u = old then none else t.prv u }
    | none => s
  let s2 := { s1 with nxt := fun u => if u = v then newNext else s1.nxt u }
  match newNext with
  | none => s2
  | some n =>
      let s3 := match s2.prv n with
        | some p => { s2 with nxt := fun u => if u = p then none else s2.nxt u }
        | none => s2
      let s4 := { s3 with prv := fun u => if u = n then some v else s3.prv u }
      setFirstAll s4 (s4.fst v) fuel (some n)

/-- The walk via `Next()` from `start` visits exactly the members of `l`,
in order, ending at nullptr. -/
def IsChain (nxt : Nat → Option Nat) : Option Nat → List Nat → Prop
  | start, [] => start = none
  | start, v :: rest => start = some v ∧ IsChain nxt (nxt v) rest

theorem setFirstAll_nxt : ∀ (s : ChainState) (f fuel : Nat) (start : Option Nat),
    (setFirstAll s f fuel start).nxt = s.nxt := by
  intro s f fuel
  induction fuel generalizing s with
  | zero =>
    intro start
    cases start with
    | none => rfl
    | some v => rfl
  | succ fuel ih =>
    intro start
    cases start with
    | none => rfl
    | some v => rw [setFirstAll, ih]

theorem setFirstAll_prv : ∀ (s : ChainState) (f fuel : Nat) (start : Option Nat),
    (setFirstAll s f fuel start).prv = s.prv := by
  intro s f fuel
  induction fuel generalizing s with
  | zero =>
    intro start
    cases start with
    | none => rfl
    | some v => rfl
  | succ fuel ih =>
    intro start
    cases start with
    | none => rfl
    | some v => rw [setFirstAll, ih]

theorem isChain_congr (nxt nxt2 : Nat → Option Nat) :
    ∀ (l : List Nat) (start : Option Nat), IsChain nxt start l →
    (∀ u ∈ l, nxt2 u = nxt u) → IsChain nxt2 start l := by
  intro l
  induction l with
  | nil => intro start h hagree; exact h
  | cons a rest ih =>
    intro start h hagree
    obtain ⟨h1, h2⟩ := h
    refine ⟨h1, ?_⟩
    rw [hagree a (List.mem_cons_self a rest)]
    exact ih (nxt a) h2 (fun u hu => hagree u (List.mem_cons_of_mem a hu))

theorem setFirstAll_fst (f : Nat) :
    ∀ (l : List Nat) (s : ChainState) (fuel : Nat) (start : Option Nat),
    IsChain s.nxt start l → l.length ≤ fuel →
    ∀ u, (setFirstAll s f fuel start).fst u = if u ∈ l then f else s.fst u := by
  intro l
  induction l with
  | nil =>
    intro s fuel start h hf u
    rw [show start = none from h]
    cases fuel with
    | zero => simp [setFirstAll]
    | succ fuel => simp [setFirstAll]
  | cons a rest ih =>
    intro s fuel start h hf u
    obtain ⟨h1, h2⟩ := h
    rw [h1]
    cases fuel with
    | zero => simp at hf
    | succ fuel =>
      rw [setFirstAll]
      have hlen : rest.length ≤ fuel := by
        simp only [List.length_cons] at hf
        omega
      rw [ih { s with fst := fun u2 => if u2 = a then f else s.fst u2 } fuel
        (s.nxt a) h2 hlen u]
      by_cases hu : u ∈ rest
      · rw [if_pos hu, if_pos (List.mem_cons_of_mem a hu)]
      · rw [if_neg hu]
        by_cases hua : u = a
        · subst hua
          simp [List.mem_cons_self]
        · simp only [if_neg hua]
          rw [if_neg]
          intro hm
          rcases List.mem_cons.mp hm with hm | hm
          · exact hua hm
          · exact hu hm

theorem isChain_cons_start {nxt : Nat → Option Nat} {n : Nat} {l : List Nat}
    (h : IsChain nxt (some n) l) : ∃ rest, l = n :: rest := by
  cases l with
  | nil => exact absurd h (by simp [IsChain])
  | cons a rest =>
    obtain ⟨h1, -⟩ := h
    injection h1 with h1
    exact ⟨rest, by rw [h1]⟩

theorem setNext_shape_none (L : Nat) (s : ChainState) (v n : Nat)
    (hold : s.nxt v = none) :
    SetNext L s v (some n) =
      setFirstAll
        { nxt := fun u => if s.prv n = some u then none
            else if u = v then some n else s.nxt u,
          prv := fun u => if u = n then some v else s.prv u,
          fst := s.fst }
        (s.fst v) L (some n) := by
  unfold SetNext
  simp only [hold]
  cases hpn : s.prv n with
  | none => rfl
  | some p =>
    have hfun : (fun u => if some p = some u then none
          else if u = v then some n else s.nxt u)
        = (fun u => if u = p then none else if u = v then some n else s.nxt u) := by
      funext u
      by_cases hup : u = p
      · subst hup
        rw [if_pos rfl, if_pos rfl]
      · rw [if_neg hup, if_neg (fun h => hup (Option.some_injective _ h).symm)]
    rw [hfun]

theorem setNext_shape_some (L : Nat) (s : ChainState) (v n old : Nat)
    (oldRest : List Nat)
    (hold : s.nxt v = some old)
    (hchain : IsChain s.nxt (some old) (old :: oldRest))
    (hfuel : (old :: oldRest).length ≤ L)
    (hno : old ≠ n) :
    SetNext L s v (some n) =
      setFirstAll
        { nxt := fun u => if s.prv n = some u then none
            else if u = v then some n else s.nxt u,
          prv := fun u => if u = n then some v
            else if u = old then none else s.prv u,
          fst := fun u => if u ∈ old :: oldRest then old else s.fst u }
        (if v ∈ old :: oldRest then old else s.fst v) L (some n) := by
  have hfst_fun : (setFirstAll s old L (some old)).fst =
      fun u => if u ∈ old :: oldRest then old else s.fst u :=
    funext (setFirstAll_fst old (old :: oldRest) s L (some old) hchain hfuel)
  unfold SetNext
  simp only [hold, setFirstAll_nxt, setFirstAll_prv, hfst_fun]
  rw [if_neg (fun h => hno h.symm)]
  cases hpn : s.prv n with
  | none => rfl
  | some p =>
    have hfun : (fun u => if some p = some u then none
          else if u = v then some n else s.nxt u)
        = (fun u => if u = p then none else if u = v then some n else s.nxt u) := by
      funext u
      by_cases hup : u = p
      · subst hup
        rw [if_pos rfl, if_pos rfl]
      · rw [if_neg hup, if_neg (fun h => hup (Option.some_injective _ h).symm)]
    rw [hfun]

theorem setNext_post (L : Nat) (s : ChainState) (v n : Nat)
    (oldTail newTail : List Nat)
    (hvn : v ≠ n)
    (hnew : IsChain s.nxt (some n) newTail)
    (hold : IsChain s.nxt (s.nxt v) oldTail)
    (hvnew : v ∉ newTail)
    (hvold : v ∉ oldTail)
    (hdisj : ∀ u ∈ oldTail, u ∉ newTail)
    (hpv : s.prv n ≠ some v)
    (hpnew : ∀ p, s.prv n = some p → p ∉ newTail)
    (hnd : newTail.Nodup)
    (hfuelN : newTail.length ≤ L)
    (hfuelO : oldTail.length ≤ L) :
    ((SetNext L s v (some n)).nxt v = some n) ∧
    IsChain (SetNext L s v (some n)).nxt (some n) newTail ∧
    (∀ u ∈ newTail, (SetNext L s v (some n)).fst u = s.fst v) ∧
    IsChain (SetNext L s v (some n)).nxt (some v) (v :: newTail) ∧
    (v :: newTail).Nodup ∧
    (∀ old oldRest, oldTail = old :: oldRest →
      (∀ u ∈ oldTail, (SetNext L s v (some n)).fst u = old) ∧
      (SetNext L s v (some n)).prv old = none) ∧
    (SetNext L s v (some n)).prv n = some v := by
  obtain ⟨rest2, hnt⟩ := isChain_cons_start hnew
  have hmemn : n ∈ newTail := by rw [hnt]; exact List.mem_cons_self n rest2
  cases oldTail with
  | nil =>
    have holdn : s.nxt v = none := hold
    rw [setNext_shape_none L s v n holdn]
    set S4 : ChainState :=
      { nxt := fun u => if s.prv n = some u then none
          else if u = v then some n else s.nxt u,
        prv := fun u => if u = n then some v else s.prv u,
        fst := s.fst } with hS4
    have hagree : ∀ u ∈ newTail, S4.nxt u = s.nxt u := by
      intro u hu
      show (if s.prv n = some u then none
        else if u = v then some n else s.nxt u) = s.nxt u
      rw [if_neg (fun h => hpnew u h hu), if_neg (fun h : u = v => hvnew (h ▸ hu))]
    have hS4chain : IsChain S4.nxt (some n) newTail :=
      isChain_congr s.nxt S4.nxt newTail (some n) hnew hagree
    have hpostnxt : (setFirstAll S4 (s.fst v) L (some n)).nxt = S4.nxt :=
      setFirstAll_nxt S4 (s.fst v) L (some n)
    have hpostprv : (setFirstAll S4 (s.fst v) L (some n)).prv = S4.prv :=
      setFirstAll_prv S4 (s.fst v) L (some n)
    have hpostfst : ∀ u, (setFirstAll S4 (s.fst v) L (some n)).fst u =
        if u ∈ newTail then s.fst v else S4.fst u :=
      setFirstAll_fst (s.fst v) newTail S4 L (some n) hS4chain hfuelN
    have hnxtv : S4.nxt v = some n := by
      show (if s.prv n = some v then none
        else if v = v then some n else s.nxt v) = some n
      rw [if_neg hpv, if_pos rfl]
    refine ⟨?_, ?_, ?_, ?_, ?_, ?_, ?_⟩
    · rw [hpostnxt]; exact hnxtv
    · rw [hpostnxt]; exact hS4chain
    · intro u hu; rw [hpostfst u, if_pos hu]
    · rw [hpostnxt]
      exact ⟨rfl, by rw [hnxtv]; exact hS4chain⟩
    · exact List.nodup_cons.mpr ⟨hvnew, hnd⟩
    · intro old oldRest heq
      exact absurd heq (by simp)
    · rw [hpostprv]
      show (if n = n then some v else s.prv n) = some v
      rw [if_pos rfl]
  | cons old oldRest =>
    have h1 : s.nxt v = some old := hold.1
    have hchain : IsChain s.nxt (some old) (old :: oldRest) := ⟨rfl, hold.2⟩
    have hmemold : old ∈ old :: oldRest := List.mem_cons_self old oldRest
    have hno : old ≠ n := fun h => (hdisj old hmemold) (h ▸ hmemn)
    have hshape := setNext_shape_some L s v n old oldRest h1 hchain hfuelO hno
    rw [if_neg hvold] at hshape
    rw [hshape]
    set S4 : ChainState :=
      { nxt := fun u => if s.prv n = some u then none
          else if u = v then some n else s.nxt u,
        prv := fun u => if u = n then some v
          else if u = old then none else s.prv u,
        fst := fun u => if u ∈ old :: oldRest then old else s.fst u } with hS4
    have hagree : ∀ u ∈ newTail, S4.nxt u = s.nxt u := by
      intro u hu
      show (if s.prv n = some u then none
        else if u = v then some n else s.nxt u) = s.nxt u
      rw [if_neg (fun h => hpnew u h hu), if_neg (fun h : u = v => hvnew (h ▸ hu))]
    have hS4chain : IsChain S4.nxt (some n) newTail :=
      isChain_congr s.nxt S4.nxt newTail (some n) hnew hagree
    have hpostnxt : (setFirstAll S4 (s.fst v) L (some n)).nxt = S4.nxt :=
      setFirstAll_nxt S4 (s.fst v) L (some n)
    have hpostprv : (setFirstAll S4 (s.fst v) L (some n)).prv = S4.prv :=
      setFirstAll_prv S4 (s.fst v) L (some n)
    have hpostfst : ∀ u, (setFirstAll S4 (s.fst v) L (some n)).fst u =
        if u ∈ newTail then s.fst v else S4.fst u :=
      setFirstAll_fst (s.fst v) newTail S4 L (some n) hS4chain hfuelN
    have hnxtv : S4.nxt v = some n := by
      show (if s.prv n = some v then none
        else if v = v then some n else s.nxt v) = some n
      rw [if_neg hpv, if_pos rfl]
    refine ⟨?_, ?_, ?_, ?_, ?_, ?_, ?_⟩
    · rw [hpostnxt]; exact hnxtv
    · rw [hpostnxt]; exact hS4chain
    · intro u hu; rw [hpostfst u, if_pos hu]
    · rw [hpostnxt]
      exact ⟨rfl, by rw [hnxtv]; exact hS4chain⟩
    · exact List.nodup_cons.mpr ⟨hvnew, hnd⟩
    · intro old2 oldRest2 heq
      cases heq
      constructor
      · intro u hu
        rw [hpostfst u, if_neg (hdisj u hu)]
        show (if u ∈ old :: oldRest then old else s.fst u) = old
        rw [if_pos hu]
      · rw [hpostprv]
        show (if old = n then some v
          else if old = old then none else s.prv old) = none
        rw [if_neg hno, if_pos rfl]
    · rw [hpostprv]
      show (if n = n then some v
        else if n = old then none else s.prv n) = some v
      rw [if_pos rfl]

/-- The state vehicle constructors establish: no links, `first` = self. -/
def initialChainState : ChainState :=
  { nxt := fun _ => none, prv := fun _ => none, fst := fun u => u }

/-- Building a consist by repeated `SetNext` calls: append each wagon to the
current tail, as train construction does. -/
def buildChain (L : Nat) : ChainState → Nat → List Nat → ChainState
  | s, _, [] => s
  | s, cur, w :: ws => buildChain L (SetNext L s cur (some w)) w ws

/-- Chain segment: the walk from `start` visits exactly `l` and then stands
at `e`. -/
def IsChainSeg (nxt : Nat → Option Nat) : Option Nat → List Nat → Option Nat → Prop
  | start, [], e => start = e
  | start, a :: rest, e => start = some a ∧ IsChainSeg nxt (nxt a) rest e

theorem isChainSeg_append (nxt : Nat → Option Nat) :
    ∀ (l1 : List Nat) (st m : Option Nat) (l2 : List Nat) (e : Option Nat),
    IsChainSeg nxt st l1 m → IsChainSeg nxt m l2 e →
    IsChainSeg nxt st (l1 ++ l2) e := by
  intro l1
  induction l1 with
  | nil =>
    intro st m l2 e h1 h2
    rw [show st = m from h1]
    exact h2
  | cons a rest ih =>
    intro st m l2 e h1 h2
    obtain ⟨ha, hr⟩ := h1
    exact ⟨ha, ih (nxt a) m l2 e hr h2⟩

theorem isChainSeg_none (nxt : Nat → Option Nat) :
    ∀ (l : List Nat) (st : Option Nat),
    IsChainSeg nxt st l none → IsChain nxt st l := by
  intro l
  induction l with
  | nil => intro st h; exact h
  | cons a rest ih =>
    intro st h
    exact ⟨h.1, ih (nxt a) h.2⟩

theorem isChainSeg_congr (nxt nxt2 : Nat → Option Nat) :
    ∀ (l : List Nat) (st e : Option Nat), IsChainSeg nxt st l e →
    (∀ u ∈ l, nxt2 u = nxt u) → IsChainSeg nxt2 st l e := by
  intro l
  induction l with
  | nil => intro st e h hagree; exact h
  | cons a rest ih =>
    intro st e h hagree
    obtain ⟨h1, h2⟩ := h
    refine ⟨h1, ?_⟩
    rw [hagree a (List.mem_cons_self a rest)]
    exact ih (nxt a) e h2 (fun u hu => hagree u (List.mem_cons_of_mem a hu))

theorem buildChain_go (L : Nat) (hL : 1 ≤ L) (head : Nat) :
    ∀ (ws : List Nat) (s : ChainState) (built : List Nat) (cur : Nat),
    IsChainSeg s.nxt (some head) built (some cur) →
    s.nxt cur = none →
    (∀ u ∈ built ++ [cur], s.fst u = head) →
    (∀ u, u ∉ built ++ [cur] → s.nxt u = none ∧ s.prv u = none ∧ s.fst u = u) →
    (∀ u ∈ ws, u ∉ built ++ [cur]) →
    ws.Nodup →
    (built ++ [cur]).Nodup →
    IsChain (buildChain L s cur ws).nxt (some head) (built ++ cur :: ws) ∧
    (∀ u ∈ built ++ cur :: ws, (buildChain L s cur ws).fst u = head) := by
  intro ws
  induction ws with
  | nil =>
    intro s built cur hseg hnone hfst hfresh hwf hwnd hbnd
    constructor
    · refine isChainSeg_none s.nxt _ _ ?_
      exact isChainSeg_append s.nxt built (some head) (some cur) [cur] none hseg
        ⟨rfl, hnone⟩
    · exact hfst
  | cons w ws2 ih =>
    intro s built cur hseg hnone hfst hfresh hwf hwnd hbnd
    have hwfresh : w ∉ built ++ [cur] := hwf w (List.mem_cons_self w ws2)
    have hcurmem : cur ∈ built ++ [cur] :=
      List.mem_append.mpr (Or.inr (List.mem_cons_self cur []))
    have hwcur : w ≠ cur := fun h => hwfresh (h ▸ hcurmem)
    have hprvw : s.prv w = none := (hfresh w hwfresh).2.1
    have hnxtw : s.nxt w = none := (hfresh w hwfresh).1
    have hshape := setNext_shape_none L s cur w hnone
    set S4 : ChainState :=
      { nxt := fun u => if s.prv w = some u then none
          else if u = cur then some w else s.nxt u,
        prv := fun u => if u = w then some cur else s.prv u,
        fst := s.fst } with hS4
    have hS4nxt : ∀ u, S4.nxt u = if u = cur then some w else s.nxt u := by
      intro u
      show (if s.prv w = some u then none
        else if u = cur then some w else s.nxt u) = _
      rw [if_neg (by rw [hprvw]; exact fun h => Option.noConfusion h)]
    have hchainw : IsChain S4.nxt (some w) [w] := by
      refine ⟨rfl, ?_⟩
      show S4.nxt w = none
      rw [hS4nxt w, if_neg hwcur]
      exact hnxtw
    have hnxt2 : ∀ u, (SetNext L s cur (some w)).nxt u =
        if u = cur then some w else s.nxt u := by
      intro u
      rw [hshape, setFirstAll_nxt]
      exact hS4nxt u
    have hprv2 : ∀ u, (SetNext L s cur (some w)).prv u =
        if u = w then some cur else s.prv u := by
      intro u
      rw [hshape, setFirstAll_prv]
    have hfst2 : ∀ u, (SetNext L s cur (some w)).fst u =
        if u = w then head else s.fst u := by
      intro u
      rw [hshape]
      rw [setFirstAll_fst (s.fst cur) [w] S4 L (some w) hchainw (by simpa using hL) u]
      by_cases huw : u = w
      · rw [if_pos (by simp [huw]), if_pos huw]
        exact hfst cur hcurmem
      · rw [if_neg (by simp [huw]), if_neg huw]
    have hstep := ih (SetNext L s cur (some w)) (built ++ [cur]) w ?_ ?_ ?_ ?_ ?_ ?_ ?_
    · refine ⟨?_, ?_⟩
      · have := hstep.1
        rw [List.append_assoc, List.singleton_append] at this
        exact this
      · intro u hu
        have := hstep.2
        rw [List.append_assoc, List.singleton_append] at this
        exact this u hu
    · -- IsChainSeg s2.nxt (some head) (built ++ [cur]) (some w)
      refine isChainSeg_append (SetNext L s cur (some w)).nxt built (some head)
        (some cur) [cur] (some w) ?_ ⟨rfl, by
          show (SetNext L s cur (some w)).nxt cur = some w
          rw [hnxt2 cur, if_pos rfl]⟩
      refine isChainSeg_congr s.nxt (SetNext L s cur (some w)).nxt built
        (some head) (some cur) hseg ?_
      intro u hu
      rw [hnxt2 u, if_neg]
      intro h
      subst h
      rcases List.nodup_append.mp hbnd with ⟨-, -, hdis⟩
      exact hdis hu (List.mem_singleton_self u)
    · rw [hnxt2 w, if_neg hwcur]
      exact hnxtw
    · intro u hu
      rw [hfst2 u]
      by_cases huw : u = w
      · rw [if_pos huw]
      · rw [if_neg huw]
        refine hfst u ?_
        rcases List.mem_append.mp hu with hu | hu
        · rcases List.mem_append.mp hu with hu | hu
          · exact List.mem_append.mpr (Or.inl hu)
          · exact List.mem_append.mpr (Or.inr hu)
        · rcases List.mem_singleton.mp hu with rfl
          exact absurd rfl huw
    · intro u hu
      have hu2 : u ∉ built ++ [cur] ∧ u ≠ w := by
        constructor
        · intro hm
          exact hu (List.mem_append.mpr (Or.inl (by
            rcases List.mem_append.mp hm with h | h
            · exact List.mem_append.mpr (Or.inl h)
            · exact List.mem_append.mpr (Or.inr h))))
        · intro h
          exact hu (List.mem_append.mpr (Or.inr (by rw [h]; exact List.mem_singleton_self w)))
      refine ⟨?_, ?_, ?_⟩
      · rw [hnxt2 u, if_neg (fun h : u = cur => hu2.1 (h ▸ hcurmem))]
        exact (hfresh u hu2.1).1
      · rw [hprv2 u, if_neg hu2.2]
        exact (hfresh u hu2.1).2.1
      · rw [hfst2 u, if_neg hu2.2]
        exact (hfresh u hu2.1).2.2
    · intro u hu
      have humem : u ∈ w :: ws2 := List.mem_cons_of_mem w hu
      have h1 : u ∉ built ++ [cur] := hwf u humem
      intro hm
      rcases List.mem_append.mp hm with hm | hm
      · rcases List.mem_append.mp hm with hm | hm
        · exact h1 (List.mem_append.mpr (Or.inl hm))
        · exact h1 (List.mem_append.mpr (Or.inr hm))
      · rcases List.mem_singleton.mp hm with rfl
        exact (List.nodup_cons.mp hwnd).1 hu
    · exact (List.nodup_cons.mp hwnd).2
    · rw [List.nodup_append]
      refine ⟨hbnd, List.nodup_singleton w, ?_⟩
      intro u hu hw
      rcases List.mem_singleton.mp hw with rfl
      exact hwfresh hu

theorem buildChain_spec (L : Nat) (head : Nat) (ws : List Nat)
    (hnd : (head :: ws).Nodup) (hL : 1 ≤ L) :
    IsChain (buildChain L initialChainState head ws).nxt (some head)
      (head :: ws) ∧
    (∀ u ∈ head :: ws, (buildChain L initialChainState head ws).fst u = head) ∧
    (∀ u ∈ head :: ws,
      (buildChain L initialChainState head ws).fst
        ((buildChain L initialChainState head ws).fst u) =
      (buildChain L initialChainState head ws).fst u) := by
  obtain ⟨hh, hwnd⟩ := List.nodup_cons.mp hnd
  have hgo := buildChain_go L hL head ws initialChainState [] head rfl rfl
    ?_ ?_ ?_ hwnd ?_
  · obtain ⟨h1, h2⟩ := hgo
    rw [List.nil_append] at h1 h2
    have hheadmem : head ∈ head :: ws := List.mem_cons_self head ws
    refine ⟨h1, h2, ?_⟩
    intro u hu
    rw [h2 u hu, h2 head hheadmem]
  · intro u hu
    rcases List.mem_singleton.mp (by simpa using hu) with rfl
    rfl
  · intro u hu
    exact ⟨rfl, rfl, rfl⟩
  · intro u hu hm
    rcases List.mem_singleton.mp (by simpa using hm) with rfl
    exact hh hu
  · simpa using List.nodup_singleton head

/-- C3: after `SetNext v (some n)` (precondition `v ≠ n`, on well-formed
acyclic chains): `v`'s successor is `n`; every vehicle reachable from `n`
keeps forming the same tail and has `first = v.first`; walking from `v`
visits `v` then each tail member exactly once; if `v` had an old successor
chain, each detached member's `first` becomes the old successor itself and
the old successor's `previous` is cleared; `n`'s `previous` is `v`; and for
any chain built by repeated `SetNext` from freshly constructed vehicles,
walking `Next()` from the head visits every member exactly once, every
member's `first` equals the head, and `first` is idempotent. -/
theorem setNext_spec (L : Nat) (s : ChainState) (v n : Nat)
    (oldTail newTail : List Nat)
    (hvn : v ≠ n)
    (hnew : IsChain s.nxt (some n) newTail)
    (hold : IsChain s.nxt (s.nxt v) oldTail)
    (hvnew : v ∉ newTail)
    (hvold : v ∉ oldTail)
    (hdisj : ∀ u ∈ oldTail, u ∉ newTail)
    (hpv : s.prv n ≠ some v)
    (hpnew : ∀ p, s.prv n = some p → p ∉ newTail)
    (hnd : newTail.Nodup)
    (hfuelN : newTail.length ≤ L)
    (hfuelO : oldTail.length ≤ L) :
    ((SetNext L s v (some n)).nxt v = some n) ∧
    IsChain (SetNext L s v (some n)).nxt (some n) newTail ∧
    (∀ u ∈ newTail, (SetNext L s v (some n)).fst u = s.fst v) ∧
    IsChain (SetNext L s v (some n)).nxt (some v) (v :: newTail) ∧
    (v :: newTail).Nodup ∧
    (∀ old oldRest, oldTail = old :: oldRest →
      (∀ u ∈ oldTail, (SetNext L s v (some n)).fst u = old) ∧
      (SetNext L s v (some n)).prv old = none) ∧
    ((SetNext L s v (some n)).prv n = some v) ∧
    (∀ (head : Nat) (ws : List Nat), (head :: ws).Nodup → 1 ≤ L →
      IsChain (buildChain L initialChainState head ws).nxt (some head)
        (head :: ws) ∧
      (∀ u ∈ head :: ws, (buildChain L initialChainState head ws).fst u = head) ∧
      (∀ u ∈ head :: ws,
        (buildChain L initialChainState head ws).fst
          ((buildChain L initialChainState head ws).fst u) =
        (buildChain L initialChainState head ws).fst u)) := by
  obtain ⟨c1, c2, c3, c4, c5, c6, c7⟩ := setNext_post L s v n oldTail newTail
    hvn hnew hold hvnew hvold hdisj hpv hpnew hnd hfuelN hfuelO
  exact ⟨c1, c2, c3, c4, c5, c6, c7,
    fun head ws hnd2 hL => buildChain_spec L head ws hnd2 hL⟩

/-- Witness for C3: vehicle 0 with old successor chain [1] is spliced before
the chain [2, 3]. -/
theorem setNext_spec_witness :
    (SetNext 10
      { nxt := fun u => if u = 0 then some 1 else if u = 2 then some 3 else none,
        prv := fun u => if u = 1 then some 0 else if u = 3 then some 2 else none,
        fst := fun u => if u = 1 then 0 else if u = 3 then 2 else u }
      0 (some 2)).nxt 0 = some 2 :=
  (setNext_spec 10
    { nxt := fun u => if u = 0 then some 1 else if u = 2 then some 3 else none,
      prv := fun u => if u = 1 then some 0 else if u = 3 then some 2 else none,
      fst := fun u => if u = 1 then 0 else if u = 3 then 2 else u }
    0 2 [1] [2, 3] (by decide) ⟨rfl, rfl, rfl⟩ ⟨rfl, rfl⟩ (by decide) (by decide)
    (by decide) (fun h => Option.noConfusion h)
    (fun p h => Option.noConfusion h) (by decide) (by decide) (by decide)).1

end OTTD
